import Mathlib

/-!
# Verification of the org-chart-builder hierarchy engine

A shallow embedding of the core logic of `org-chart-builder`:

* `src/stores/orgChartStore.js` — the cycle predicate `wouldCreateCircular`,
  the mutation operations `setManager` / `bulkSetManager`, the visibility
  walk `isPersonVisible`, the rebuild step, `importFromJSON`, and the edge
  construction of the diagram projection;
* `src/utils/layoutEngine.js` — `calculateLayout`,
  `calculateHierarchicalLayout`, `calculateGridLayout`;
* `src/utils/roleExpander.js` — `expandRoleTemplates`, `getStartQuarter`.

JavaScript strings-or-null become `Option String`; a JS truthiness test on
such a value (`if (x)`, `while (current)`) is `none`-or-`""` falsy, which the
embedding spells out at each use site.  JS objects used as string-keyed maps
(`managerAssignments`, the layout's `positions`) become association lists with
overwrite-on-assign (`assocSet`) and delete (`assocDelete`) mirroring object
semantics.  The JS functions that recurse on the manager graph
(`wouldCreateCircular`'s visited cap, the layout recursion, the visibility
walk) terminate on acyclic data only; the embedding makes them total with an
explicit budget chosen so that on acyclic inputs the budget is never
exhausted (proved below), matching the JS behaviour on every input on which
the JS code terminates.
-/

/-- 2-D position, `{x, y}` in the JS code. -/
structure Pos where
  x : Int
  y : Int
deriving Repr, DecidableEq

/-- The `metadata` record attached to each expanded person node
(`roleExpander.js`).  The opaque `templateMetadata` payload is not modelled:
no modelled operation reads it. -/
structure Metadata where
  originalRoleName : String
  costPerRole : String
  instanceNumber : Nat
  totalInstances : Nat
deriving Repr, DecidableEq

/-- One expanded person node (`roleExpander.js` / `orgChartStore.js`).
`managerId = none` is JS `null`. -/
structure PersonNode where
  id : String
  templateId : Option String
  roleName : String
  displayName : String
  department : String
  departmentId : String
  managerId : Option String
  position : Pos
  activeInQuarters : List String
  startQuarter : Option String
  isFutureRole : Bool
  metadata : Metadata
deriving Repr, DecidableEq

/-- A department record; the modelled code reads only `id` (grid layout,
node styling) — `name`/`color` are carried for fidelity. -/
structure Department where
  id : String
  name : String
  color : String
deriving Repr, DecidableEq

/-- Per-quarter headcounts of a role template. -/
structure Quarters where
  q1 : Nat
  q2 : Nat
  q3 : Nat
  q4 : Nat
deriving Repr, DecidableEq

/-- A role template (one cleaned CSV row). -/
structure RoleTemplate where
  id : String
  cleanName : String
  originalName : String
  department : String
  departmentId : String
  quarters : Quarters
  costPerRole : String
deriving Repr, DecidableEq

/-- `template.quarters[quarter] || 0`: indexing the quarters object with an
arbitrary string key, `undefined` coerced to `0`. -/
def quartersGet (qs : Quarters) (quarter : String) : Nat :=
  if quarter = "Q1" then qs.q1
  else if quarter = "Q2" then qs.q2
  else if quarter = "Q3" then qs.q3
  else if quarter = "Q4" then qs.q4
  else 0

/-- JS truthiness of a string-or-null value: `null`/`undefined` and `""` are
falsy. -/
def jsTruthy : Option String → Bool
  | none => false
  | some s => s ≠ ""

/-- Association-list lookup, first match — JS object property read. -/
def assocLookup {β : Type} (m : List (String × β)) (k : String) : Option β :=
  (m.find? (fun kv => kv.1 = k)).map (·.2)

/-- Association-list assignment with object semantics: overwrite the existing
key, else append. -/
def assocSet {β : Type} (m : List (String × β)) (k : String) (v : β) :
    List (String × β) :=
  if m.any (fun kv => kv.1 = k) then
    m.map (fun kv => if kv.1 = k then (k, v) else kv)
  else m ++ [(k, v)]

/-- Association-list deletion — JS `delete obj[k]`. -/
def assocDelete {β : Type} (m : List (String × β)) (k : String) :
    List (String × β) :=
  m.filter (fun kv => kv.1 ≠ k)

/-- The loop of `wouldCreateCircular` (orgChartStore.js:17-27): walk up the
manager chain from `cur`, returning `true` on reaching `personId`, on a
revisit, or when the visited set would exceed 1000 entries; `false` when the
chain runs out (`current` falsy).  `fuel` is `1000 - visited.length`, the
number of nodes that may still be added before the JS size cap fires. -/
def wccLoop (personId : String) (nodes : List PersonNode) :
    Nat → Option String → List String → Bool
  | _, none, _ => false
  | fuel, some c, visited =>
    if c = "" then false
    else if c = personId then true
    else if visited.contains c then true
    else
      match fuel with
      | 0 => true
      | fuel' + 1 =>
        wccLoop personId nodes fuel'
          ((nodes.find? (fun p => p.id = c)).bind (fun p => p.managerId))
          (c :: visited)

/-- `wouldCreateCircular(personId, newManagerId, allPersonNodes)`
(orgChartStore.js:10-30).  Returns `true` for a falsy candidate manager and
for self-assignment, else walks the candidate's manager chain. -/
def wouldCreateCircular (personId : String) (newManagerId : Option String)
    (allPersonNodes : List PersonNode) : Bool :=
  match newManagerId with
  | none => true
  | some m =>
    if m = "" then true
    else if personId = m then true
    else wccLoop personId allPersonNodes 1000 (some m) []

/-- The store state (`orgChartStore.js`).  Fields the modelled operations
never read (`rawCSVData`, `isLoading`, `dataVersion`, `lastSaved`, and the
derived render lists `nodes`/`edges`, which are modelled by the standalone
projection functions below) are omitted.  `departments`, `roleTemplates` and
`selectedQuarter` are `Option`-typed because `importFromJSON` copies possibly
absent JSON fields into them (JS `undefined`). -/
structure OrgState where
  departments : Option (List Department)
  roleTemplates : Option (List RoleTemplate)
  personNodes : List PersonNode
  managerAssignments : List (String × String)
  selectedQuarter : Option String
  csvFileName : Option String
  collapsedNodes : List String
  error : Option String
deriving Repr, DecidableEq

/-- The visibility walk of `rebuildChart` (orgChartStore.js:355-366): a
person is hidden iff some strict ancestor on the `managerId` chain is
collapsed.  The JS walk has no cycle guard and diverges on cyclic data;
`fuel` is a budget that the callers set high enough that it is never
exhausted on acyclic data (`visLoop_fuel` below); on exhaustion we return
`false`, an arbitrary stand-in for the JS divergence. -/
def visLoop (personNodes : List PersonNode) (collapsedNodes : List String) :
    Nat → Option String → Bool
  | _, none => true
  | 0, some _ => false
  | fuel + 1, some c =>
    if c = "" then true
    else if collapsedNodes.contains c then false
    else
      visLoop personNodes collapsedNodes fuel
        ((personNodes.find? (fun p => p.id = c)).bind (fun p => p.managerId))

/-- `isPersonVisible(person)` from `rebuildChart`. -/
def isPersonVisible (personNodes : List PersonNode)
    (collapsedNodes : List String) (person : PersonNode) : Bool :=
  visLoop personNodes collapsedNodes (personNodes.length + 1) person.managerId

/-! ## Layout engine (`layoutEngine.js`) -/

/-- `childrenMap` of `calculateHierarchicalLayout` (layoutEngine.js:21-30),
read as a function: the children of `id` are the persons whose truthy
`managerId` equals `id`.  Falsy manager ids are never inserted as keys, so
looking up `""` yields no children. -/
def childrenOf (personNodes : List PersonNode) (id : String) :
    List PersonNode :=
  if id = "" then []
  else personNodes.filter (fun p => p.managerId = some id)

/-- `p.templateId || p.id` — role key of a child (layoutEngine.js:46). -/
def roleKey (p : PersonNode) : String :=
  match p.templateId with
  | some t => if t = "" then p.id else t
  | none => p.id

/-- Insert `c` into the insertion-ordered group list under key `k`
(the `groups` Map of `groupChildrenByRole`, layoutEngine.js:43-53). -/
def addToGroups : List (String × List PersonNode) → String → PersonNode →
    List (String × List PersonNode)
  | [], k, c => [(k, [c])]
  | (k', g) :: rest, k, c =>
    if k' = k then (k', g ++ [c]) :: rest
    else (k', g) :: addToGroups rest k c

/-- `groupChildrenByRole(children)`: group children by role key, preserving
first-occurrence order of keys, returning the groups. -/
def groupChildrenByRole (children : List PersonNode) :
    List (List PersonNode) :=
  (children.foldl (fun gs c => addToGroups gs (roleKey c) c) []).map (·.2)

mutual
/-- `getSubtreeWidth(nodeId)` (layoutEngine.js:58-83).  `NODE_WIDTH = 220`,
`HORIZONTAL_GAP = 20`.  The JS recursion terminates on acyclic data only;
`fuel` bounds the depth, and the callers pass a budget large enough that it
is never exhausted on acyclic inputs. -/
def getSubtreeWidth (ch : String → List PersonNode) :
    Nat → String → Int
  | 0, _ => 220
  | fuel + 1, nodeId =>
    let children := ch nodeId
    if children.isEmpty then 220
    else if children.any (fun c => !(ch c.id).isEmpty) then
      max 220 (sumChildWidths ch fuel children)
    else
      let numColumns := (groupChildrenByRole children).length
      max 220 ((numColumns : Int) * 220 + ((numColumns : Int) - 1) * 20)
termination_by fuel _ => (fuel, 0)

/-- Sum of children's subtree widths plus a 20px gap after each but the
last (the `totalWidth` loop of `getSubtreeWidth`). -/
def sumChildWidths (ch : String → List PersonNode) :
    Nat → List PersonNode → Int
  | _, [] => 0
  | fuel, [c] => getSubtreeWidth ch fuel c.id
  | fuel, c :: c' :: rest =>
    getSubtreeWidth ch fuel c.id + 20 + sumChildWidths ch fuel (c' :: rest)
termination_by fuel children => (fuel, children.length + 1)
end

/-- Stack one role group vertically (layoutEngine.js:122-126):
`NODE_HEIGHT = 100`, `VERTICAL_GAP = 15`. -/
def stackGroup : List PersonNode → Int → Int → List (String × Pos) →
    List (String × Pos)
  | [], _, _, pos => pos
  | c :: rest, x, y, pos =>
    stackGroup rest x (y + 100 + 15) (assocSet pos c.id ⟨x, y⟩)

/-- Lay the role-group columns side by side (layoutEngine.js:117-128):
column pitch `NODE_WIDTH + HORIZONTAL_GAP = 240`. -/
def stackRoleGroups : List (List PersonNode) → Int → Int →
    List (String × Pos) → List (String × Pos)
  | [], _, _, pos => pos
  | g :: rest, currentX, childY, pos =>
    stackRoleGroups rest (currentX + 220 + 20) childY
      (stackGroup g currentX childY pos)

mutual
/-- `layoutSubtree(nodeId, startX, startY)` (layoutEngine.js:89-132),
threading the `positions` object explicitly; returns the positions and the
subtree width.  `LEVEL_GAP = 40`. -/
def layoutSubtree (ch : String → List PersonNode) :
    Nat → String → Int → Int → List (String × Pos) →
    List (String × Pos) × Int
  | 0, _, _, _, pos => (pos, 220)
  | fuel + 1, nodeId, startX, startY, pos =>
    let children := ch nodeId
    let subtreeWidth := getSubtreeWidth ch (fuel + 1) nodeId
    let pos1 := assocSet pos nodeId ⟨startX + (subtreeWidth - 220) / 2, startY⟩
    if children.isEmpty then (pos1, subtreeWidth)
    else
      let childY := startY + 100 + 40
      if children.any (fun c => !(ch c.id).isEmpty) then
        (layoutChildren ch fuel children startX childY pos1, subtreeWidth)
      else
        (stackRoleGroups (groupChildrenByRole children) startX childY pos1,
         subtreeWidth)
termination_by fuel _ _ _ _ => (fuel, 0)

/-- The horizontal child loop of `layoutSubtree` (layoutEngine.js:110-114). -/
def layoutChildren (ch : String → List PersonNode) :
    Nat → List PersonNode → Int → Int → List (String × Pos) →
    List (String × Pos)
  | _, [], _, _, pos => pos
  | fuel, c :: rest, currentX, childY, pos =>
    let r := layoutSubtree ch fuel c.id currentX childY pos
    layoutChildren ch fuel rest (currentX + r.2 + 20) childY r.1
termination_by fuel children _ _ _ => (fuel, children.length + 1)
end

/-- `rootNodes` filter (layoutEngine.js:33): no truthy manager, or the
manager id absent from the node set. -/
def isRootNode (personNodes : List PersonNode) (p : PersonNode) : Bool :=
  match p.managerId with
  | none => true
  | some m => m = "" || !(personNodes.any (fun q => q.id = m))

/-- The truthy `managerId` values (the `managerIds` Set,
layoutEngine.js:36). -/
def managerIdValues (personNodes : List PersonNode) : List String :=
  personNodes.filterMap (fun p =>
    match p.managerId with
    | some m => if m = "" then none else some m
    | none => none)

/-- Place the unassigned leaves in a 6-column grid starting at (50, 50)
(layoutEngine.js:138-147): x pitch 240, y pitch 115. -/
def placeUnassigned : List PersonNode → Nat → List (String × Pos) →
    List (String × Pos)
  | [], _, pos => pos
  | p :: rest, index, pos =>
    placeUnassigned rest (index + 1)
      (assocSet pos p.id
        ⟨50 + ((index % 6 : Nat) : Int) * 240, 50 + ((index / 6 : Nat) : Int) * 115⟩)

/-- Lay each true root's subtree left to right (layoutEngine.js:153-156),
advancing by the subtree width plus `HORIZONTAL_GAP * 2 = 40`. -/
def layoutRoots (ch : String → List PersonNode) (fuel : Nat) :
    List PersonNode → Int → Int → List (String × Pos) →
    List (String × Pos)
  | [], _, _, pos => pos
  | r :: rest, currentX, currentY, pos =>
    let res := layoutSubtree ch fuel r.id currentX currentY pos
    layoutRoots ch fuel rest (currentX + res.2 + 40) currentY res.1

/-- `calculateHierarchicalLayout(personNodes, departments)`
(layoutEngine.js:10-159).  The recursion budget `personNodes.length + 1`
is never exhausted on acyclic data (see `c6` development below), where the
embedding then agrees with the JS recursion. -/
def calculateHierarchicalLayout (personNodes : List PersonNode)
    (_departments : List Department) : List (String × Pos) :=
  let ch := childrenOf personNodes
  let rootNodes := personNodes.filter (isRootNode personNodes)
  let managerIds := managerIdValues personNodes
  let trueRoots := rootNodes.filter (fun p => managerIds.contains p.id)
  let unassignedLeaves := rootNodes.filter (fun p => !(managerIds.contains p.id))
  let pos0 := placeUnassigned unassignedLeaves 0 []
  let startY : Int :=
    if unassignedLeaves.length > 0 then
      50 + (((unassignedLeaves.length + 5) / 6 : Nat) : Int) * 115 + 40
    else 50
  layoutRoots ch (personNodes.length + 1) trueRoots 50 startY pos0

/-- Place one department's nodes in a 4-column grid
(layoutEngine.js:183-191): x pitch `NODE_SPACING_X = 240`, y pitch
`NODE_SPACING_Y = 120`. -/
def placeGridDept : List PersonNode → Int → Nat → List (String × Pos) →
    List (String × Pos)
  | [], _, _, pos => pos
  | p :: rest, startY, index, pos =>
    placeGridDept rest startY (index + 1)
      (assocSet pos p.id
        ⟨((index % 4 : Nat) : Int) * 240, startY + ((index / 4 : Nat) : Int) * 120⟩)

/-- One step of the department fold of `calculateGridLayout`
(layoutEngine.js:177-196); empty departments are skipped without advancing
the vertical cursor; `DEPT_SPACING_Y = 180`. -/
def gridDeptStep (personNodes : List PersonNode)
    (acc : List (String × Pos) × Int) (dept : Department) :
    List (String × Pos) × Int :=
  let deptNodes := personNodes.filter (fun p => p.departmentId = dept.id)
  if deptNodes.length = 0 then acc
  else
    let pos' := placeGridDept deptNodes acc.2 0 acc.1
    (pos', acc.2 + (((deptNodes.length + 3) / 4 : Nat) : Int) * 120 + 180)

/-- `calculateGridLayout(personNodes, departments)`
(layoutEngine.js:167-199). -/
def calculateGridLayout (personNodes : List PersonNode)
    (departments : List Department) : List (String × Pos) :=
  (departments.foldl (gridDeptStep personNodes) ([], 0)).1

/-- `calculateLayout(personNodes, departments)` (layoutEngine.js:208-217):
hierarchical iff any of the *given* persons has `managerId !== null`, else
department grid. -/
def calculateLayout (personNodes : List PersonNode)
    (departments : List Department) : List (String × Pos) :=
  if personNodes.any (fun p => p.managerId.isSome) then
    calculateHierarchicalLayout personNodes departments
  else
    calculateGridLayout personNodes departments

/-- The key set of a positions object: `id` occurs as a key. -/
def hasKey {β : Type} (pos : List (String × β)) (k : String) : Bool :=
  pos.any (fun kv => kv.1 = k)

/-- The `visiblePersonNodes` filter of `rebuildChart`
(orgChartStore.js:369). -/
def visibleOf (st : OrgState) : List PersonNode :=
  st.personNodes.filter (isPersonVisible st.personNodes st.collapsedNodes)

/-- The `newPositions` object `rebuildChart` computes
(orgChartStore.js:372): the layout of the visible persons. -/
def rebuildPositions (st : OrgState) (departments : List Department) :
    List (String × Pos) :=
  calculateLayout (visibleOf st) departments

/-! ## Store operations (`orgChartStore.js`) -/

/-- The position-refresh part of `rebuildChart` (orgChartStore.js:344-454):
filter to visible persons, recompute the layout, write each person's new
position back (`newPositions[person.id] || person.position`).  The render
lists `nodes`/`edges` it also rebuilds are modelled by `buildEdges` below;
no modelled field depends on them.  `none` models the JS exception raised
when `departments` is `undefined` (`departments.forEach` in the grid layout,
`departments.find` when building nodes — one of the two is always reached). -/
def rebuildChart (st : OrgState) : Option OrgState :=
  match st.departments with
  | none => none
  | some deps =>
    let newPositions := rebuildPositions st deps
    some { st with
      personNodes := st.personNodes.map (fun person =>
        { person with
          position := (assocLookup newPositions person.id).getD person.position }) }

/-- `setManager(personId, managerId, skipRebuild)`
(orgChartStore.js:218-248).  `none` models the exception propagating out of
the final `rebuildChart()` call when `departments` is `undefined`. -/
def setManager (st : OrgState) (personId : String)
    (managerId : Option String) (skipRebuild : Bool) :
    Option (OrgState × Bool) :=
  if jsTruthy managerId && wouldCreateCircular personId managerId st.personNodes then
    some ({ st with
      error := some "Cannot assign manager: would create circular reference" },
      false)
  else
    let newAssignments :=
      match managerId with
      | some mid =>
        if mid = "" then assocDelete st.managerAssignments personId
        else assocSet st.managerAssignments personId mid
      | none => assocDelete st.managerAssignments personId
    let st1 : OrgState := { st with
      personNodes := st.personNodes.map (fun node =>
        if node.id = personId then { node with managerId := managerId } else node),
      managerAssignments := newAssignments,
      error := none }
    if skipRebuild then some (st1, true)
    else (rebuildChart st1).map (fun st2 => (st2, true))

/-- `bulkSetManager(personIds, managerId)` (orgChartStore.js:253-294);
returns the new state and `personIds.length - failedCount`.  Every
validation runs against the pre-call `personNodes`. -/
def bulkSetManager (st : OrgState) (personIds : List String)
    (managerId : Option String) : Option (OrgState × Nat) :=
  let personNodes := st.personNodes
  let failedCount :=
    (personIds.filter (fun personId =>
      jsTruthy managerId && wouldCreateCircular personId managerId personNodes)).length
  let newAssignments :=
    personIds.foldl (fun m personId =>
      match managerId with
      | none => assocDelete m personId
      | some mid =>
        if mid = "" then assocDelete m personId
        else if wouldCreateCircular personId (some mid) personNodes then m
        else assocSet m personId mid) st.managerAssignments
  let st1 : OrgState := { st with
    personNodes := personNodes.map (fun node =>
      if personIds.contains node.id then
        if jsTruthy managerId && wouldCreateCircular node.id managerId personNodes then
          node
        else { node with managerId := managerId }
      else node),
    managerAssignments := newAssignments,
    error :=
      if failedCount > 0 then
        some (toString failedCount ++ " assignment(s) skipped due to circular reference")
      else none }
  (rebuildChart st1).map (fun st2 => (st2, personIds.length - failedCount))

/-- One call of the manager relationship API, for stating properties of
arbitrary call sequences. -/
inductive MgrOp where
  | single (personId : String) (managerId : Option String)
  | bulk (personIds : List String) (managerId : Option String)
deriving Repr, DecidableEq

/-- Apply one `MgrOp` (with the default `skipRebuild = false`). -/
def applyOp (st : OrgState) : MgrOp → Option OrgState
  | .single personId managerId =>
    (setManager st personId managerId false).map (·.1)
  | .bulk personIds managerId =>
    (bulkSetManager st personIds managerId).map (·.1)

/-- Apply a sequence of manager mutations. -/
def applyOps (st : OrgState) : List MgrOp → Option OrgState
  | [] => some st
  | op :: ops =>
    match applyOp st op with
    | none => none
    | some st' => applyOps st' ops

/-- The person ids an operation attempts to reassign. -/
def opTargets : MgrOp → List String
  | .single personId _ => [personId]
  | .bulk personIds _ => personIds

/-- The edge list built by `rebuildChart` (orgChartStore.js:407-446):
one pass over the visible persons, a `(managerId, roleKey)` de-duplication
set for leaf reports, an edge only when the manager is itself visible. -/
structure Edge where
  id : String
  source : String
  target : String
  crossDepartment : Bool
deriving Repr, DecidableEq

/-- The fold of the edge construction; `acc = (edges, edgesCreated)`. -/
def buildEdgesStep (visiblePersonNodes personNodes : List PersonNode)
    (acc : List Edge × List String) (person : PersonNode) :
    List Edge × List String :=
  match person.managerId with
  | none => acc
  | some m =>
    if m = "" then acc
    else if visiblePersonNodes.any (fun n => n.id = m) then
      let manager := personNodes.find? (fun n => n.id = m)
      let isCrossDepartment :=
        !(manager.map (fun n => n.departmentId) == some person.departmentId)
      let isPersonManager :=
        personNodes.any (fun n => n.managerId = some person.id)
      let rk := roleKey person
      let edgeKey := m ++ "-" ++ rk
      if isPersonManager || !(acc.2.contains edgeKey) then
        (acc.1 ++ [{ id := "edge-" ++ m ++ "-" ++ person.id,
                     source := m, target := person.id,
                     crossDepartment := isCrossDepartment }],
         edgeKey :: acc.2)
      else acc
    else acc

/-- `edges` as built by `rebuildChart` from the visible persons (the full
person list is consulted for the manager lookup and the is-a-manager
test). -/
def buildEdges (visiblePersonNodes personNodes : List PersonNode) :
    List Edge :=
  (visiblePersonNodes.foldl (buildEdgesStep visiblePersonNodes personNodes)
    ([], [])).1

/-- Both endpoints of an edge occur among the given (visible) nodes. -/
def edgeOk (vis : List PersonNode) (e : Edge) : Bool :=
  vis.any (fun n => n.id = e.source) && vis.any (fun n => n.id = e.target)

/-! ## Import (`orgChartStore.js:497-523`) -/

/-- The JSON payload handed to `importFromJSON`; every field may be absent
(`none` = the key is missing / `undefined`). -/
structure ImportData where
  departments : Option (List Department)
  roleTemplates : Option (List RoleTemplate)
  personNodes : Option (List PersonNode)
  selectedQuarter : Option String
  csvFileName : Option String
  collapsedNodes : Option (List String)
deriving Repr, DecidableEq

/-- The `managerAssignments` reconstruction of `importFromJSON`
(orgChartStore.js:500-505): one object assignment per imported node with a
truthy `managerId`. -/
def buildAssignmentsFromNodes (personNodes : List PersonNode) :
    List (String × String) :=
  personNodes.foldl (fun m node =>
    match node.managerId with
    | some mid => if mid = "" then m else assocSet m node.id mid
    | none => m) []

/-- `importFromJSON(jsonData)` (orgChartStore.js:497-523).  The whole body
runs in a `try`: if `jsonData.personNodes` is absent the initial `forEach`
throws before any mutation; otherwise the store is overwritten and
`rebuildChart()` runs — if *that* throws (absent `departments`) the catch
still reports failure, but the overwrite has already happened. -/
def importFromJSON (st : OrgState) (jsonData : ImportData) :
    OrgState × Bool :=
  match jsonData.personNodes with
  | none => ({ st with error := some "Failed to import data: invalid format" }, false)
  | some importedNodes =>
    let managerAssignments := buildAssignmentsFromNodes importedNodes
    let st1 : OrgState := { st with
      departments := jsonData.departments,
      roleTemplates := jsonData.roleTemplates,
      personNodes := importedNodes,
      managerAssignments := managerAssignments,
      selectedQuarter := jsonData.selectedQuarter,
      csvFileName := jsonData.csvFileName,
      collapsedNodes := jsonData.collapsedNodes.getD [],
      error := none }
    match rebuildChart st1 with
    | none => ({ st1 with error := some "Failed to import data: invalid format" }, false)
    | some st2 => (st2, true)

/-! ## Role expansion (`roleExpander.js`) -/

/-- JS `a.startsWith(b)`, evaluated on the character lists (the byte-level
`String.startsWith` does not reduce inside the kernel). -/
def strStartsWith (s pre : String) : Bool :=
  pre.data.isPrefixOf s.data

/-- `getStartQuarter(quarters)` (roleExpander.js:182-188): the first quarter
in the fixed order Q1..Q4 with headcount > 0, else `null`. -/
def getStartQuarter (qs : Quarters) : Option String :=
  (["Q1", "Q2", "Q3", "Q4"]).find? (fun q => quartersGet qs q > 0)

/-- `activeInQuarters` (roleExpander.js:218-221): the quarters with
headcount > 0, in object-entry order Q1..Q4. -/
def quartersActiveList (qs : Quarters) : List String :=
  (["Q1", "Q2", "Q3", "Q4"]).filter (fun q => quartersGet qs q > 0)

/-- The per-template instance loop of `expandRoleTemplates`
(roleExpander.js:243-276): instance `i` is skipped when it is not active in
the selected quarter, not needed as a manager placeholder, and the view is
not "Full Year". -/
def expandTemplateNodes (quarter : String) (existingManagerIds : List String)
    (t : RoleTemplate) (headcount : Nat) : List PersonNode :=
  (List.range headcount).filterMap (fun i =>
    let nodeId := t.id ++ "-person-" ++ toString i
    let isNeededAsManager := existingManagerIds.contains nodeId
    let isCurrentlyActive : Bool := quartersGet t.quarters quarter > i
    if !isCurrentlyActive && !isNeededAsManager && quarter ≠ "Full Year" then
      none
    else
      some
        { id := nodeId
          templateId := some t.id
          roleName := t.cleanName
          displayName :=
            if headcount > 1 then t.cleanName ++ " " ++ toString (i + 1)
            else t.cleanName
          department := t.department
          departmentId := t.departmentId
          managerId := none
          position := ⟨0, 0⟩
          activeInQuarters := quartersActiveList t.quarters
          startQuarter := getStartQuarter t.quarters
          isFutureRole := !isCurrentlyActive && isNeededAsManager
          metadata :=
            { originalRoleName := t.originalName
              costPerRole := t.costPerRole
              instanceNumber := i + 1
              totalInstances := headcount } })

/-- `expandRoleTemplates(roleTemplates, quarter, existingManagerIds)`
(roleExpander.js:197-280).  A template with zero headcount for the quarter
is expanded anyway when some referenced manager id starts with the template
id, with `max(1, quarters.Q4 || 1)` placeholder instances. -/
def expandRoleTemplates (roleTemplates : List RoleTemplate) (quarter : String)
    (existingManagerIds : List String) : List PersonNode :=
  roleTemplates.foldl (fun personNodes t =>
    let headcount :=
      if quarter = "Full Year" then
        max (max t.quarters.q1 t.quarters.q2) (max t.quarters.q3 t.quarters.q4)
      else quartersGet t.quarters quarter
    if headcount = 0 then
      if existingManagerIds.any (fun id => id ≠ "" && strStartsWith id t.id) then
        personNodes ++
          expandTemplateNodes quarter existingManagerIds t (max 1 t.quarters.q4)
      else personNodes
    else personNodes ++ expandTemplateNodes quarter existingManagerIds t headcount)
    []

/-! ## Analysis: the manager graph as a partial successor function -/

/-- Truthiness-filtered string option: `""` is collapsed to `none`, matching
every `while (current)` / `if (x.managerId)` walk in the JS code. -/
def truthyOpt : Option String → Option String
  | none => none
  | some m => if m = "" then none else some m

/-- The manager graph of a person list: the truthy `managerId` of the first
node with the given id (all JS walks use `find`). -/
def mgrOf (personNodes : List PersonNode) (x : String) : Option String :=
  truthyOpt ((personNodes.find? (fun p => p.id = x)).bind (fun p => p.managerId))

/-- The manager graph of a canonical assignment map. -/
def assignGraph (m : List (String × String)) (x : String) : Option String :=
  assocLookup m x

/-- The node ids of a person list. -/
def idsOf (personNodes : List PersonNode) : List String :=
  personNodes.map (·.id)

/-- Iterate a partial successor function `n` times. -/
def stepIter (g : String → Option String) : Nat → String → Option String
  | 0, x => some x
  | n + 1, x => (g x).bind (stepIter g n)

/-- A partial successor function is acyclic: no positive number of steps
returns to the start.  `n = 1` forbids self-loops. -/
def Acyclic (g : String → Option String) : Prop :=
  ∀ x n, 0 < n → stepIter g n x ≠ some x

/-- `y` lies `d` levels below `x` along the layout's children relation. -/
def DescN (ch : String → List PersonNode) : Nat → String → String → Prop
  | 0, x, y => y = x
  | d + 1, x, y => ∃ c ∈ ch x, DescN ch d c.id y

/-! ## Concrete instances used by counterexamples and witnesses -/

/-- A minimal person node. -/
def mkPerson (id : String) (managerId : Option String)
    (departmentId : String) : PersonNode :=
  { id := id, templateId := none, roleName := "Role", displayName := "Role",
    department := "Dept", departmentId := departmentId, managerId := managerId,
    position := ⟨0, 0⟩, activeInQuarters := [], startQuarter := none,
    isFutureRole := false, metadata := ⟨"Role", "", 1, 1⟩ }

def exDept : Department := ⟨"d", "Dept", "#888888"⟩

/-- A store state over the single department `exDept`. -/
def mkState (personNodes : List PersonNode)
    (managerAssignments : List (String × String))
    (collapsedNodes : List String) : OrgState :=
  { departments := some [exDept], roleTemplates := some [],
    personNodes := personNodes, managerAssignments := managerAssignments,
    selectedQuarter := some "Q4", csvFileName := none,
    collapsedNodes := collapsedNodes, error := none }

def exEmptyState : OrgState := mkState [] [] []

def exPersonA : PersonNode := mkPerson "a" none "d"

def exPersonB : PersonNode := mkPerson "b" none "d"

/-- Two unassigned persons `a`, `b`. -/
def exPairState : OrgState := mkState [exPersonA, exPersonB] [] []

/-- X, Y, Z unassigned; M already reports to Z, so assigning Z under M
would close a cycle. -/
def exBulkState : OrgState :=
  mkState [mkPerson "X" none "d", mkPerson "Y" none "d",
           mkPerson "Z" none "d", mkPerson "M" (some "Z") "d"]
    [("M", "Z")] []

/-- A reports to M and M is collapsed, so only M is visible. -/
def exCollapsedState : OrgState :=
  mkState [mkPerson "M" none "d", mkPerson "A" (some "M") "d"]
    [("A", "M")] ["M"]

/-- An import payload whose required `roleTemplates` key is absent. -/
def exImportMissingTemplates : ImportData :=
  { departments := some [exDept], roleTemplates := none,
    personNodes := some [], selectedQuarter := some "Q1",
    csvFileName := none, collapsedNodes := none }

/-- A fully-formed import payload with one manager edge `a → b`. -/
def exImportGood : ImportData :=
  { departments := some [exDept], roleTemplates := some [],
    personNodes := some [mkPerson "a" (some "b") "d", mkPerson "b" none "d"],
    selectedQuarter := some "Q1", csvFileName := none,
    collapsedNodes := some [] }

/-- An import payload whose required `departments` key is absent but whose
`personNodes` key is present. -/
def exImportMissingDepts : ImportData :=
  { departments := none, roleTemplates := some [],
    personNodes := some [mkPerson "a" (some "b") "d"],
    selectedQuarter := some "Q1", csvFileName := none, collapsedNodes := none }

/-- The template of the C9 scenario: quarters {Q1:0, Q2:2, Q3:2, Q4:2}. -/
def exTemplate5 : RoleTemplate :=
  { id := "role-5", cleanName := "Engineer", originalName := "Engineer",
    department := "Eng", departmentId := "dept-1",
    quarters := ⟨0, 2, 2, 2⟩, costPerRole := "" }

/-- Persons `b` and `a → b`, in a list. -/
def exVisPersons : List PersonNode :=
  [mkPerson "b" none "d", mkPerson "a" (some "b") "d"]

/-- The call sequence of the C1 counterexample: two `setManager` calls whose
person ids are absent from the working person set. -/
def exCycleOps : List MgrOp :=
  [.single "x" (some "y"), .single "y" (some "x")]

/-- The state well-formedness that the manager mutations preserve: the
department list is present (so `rebuildChart` cannot throw), the canonical
map agrees pointwise with the person nodes' manager graph, and that graph is
acyclic. -/
def StoreInv (st : OrgState) : Prop :=
  st.departments.isSome = true
  ∧ (∀ x, assocLookup st.managerAssignments x = mgrOf st.personNodes x)
  ∧ Acyclic (mgrOf st.personNodes)

theorem stepIter_add (g : String → Option String) (a b : Nat) (x : String) :
    stepIter g (a + b) x = (stepIter g a x).bind (stepIter g b) := by
  induction a generalizing x with
  | zero => simp [stepIter]
  | succ a ih =>
    have : a + 1 + b = (a + b) + 1 := by omega
    rw [this]
    simp only [stepIter]
    cases g x with
    | none => simp
    | some y => simp [ih y]

theorem stepIter_succ_back (g : String → Option String) (n : Nat) (x : String) :
    stepIter g (n + 1) x = (stepIter g n x).bind g := by
  have h := stepIter_add g n 1 x
  rw [h]
  cases stepIter g n x with
  | none => simp
  | some y => simp [stepIter]

theorem stepIter_congr {g g' : String → Option String}
    (h : ∀ x, g x = g' x) (n : Nat) (x : String) :
    stepIter g n x = stepIter g' n x := by
  induction n generalizing x with
  | zero => simp [stepIter]
  | succ n ih =>
    simp only [stepIter, h x]
    cases g' x with
    | none => simp
    | some y => simp [ih y]

theorem acyclic_congr {g g' : String → Option String}
    (h : ∀ x, g x = g' x) (hg : Acyclic g) : Acyclic g' := by
  intro x n hn
  rw [← stepIter_congr h n x]
  exact hg x n hn

/-- A ranking argument: if every edge strictly decreases a `Nat` rank, the
graph is acyclic.  Used by the witnesses to discharge concrete acyclicity
hypotheses. -/
theorem acyclic_of_rank (g : String → Option String) (rank : String → Nat)
    (h : ∀ x y, g x = some y → rank y < rank x) : Acyclic g := by
  have key : ∀ n x y, stepIter g n y = some x → 0 < n → rank x < rank y := by
    intro n
    induction n with
    | zero => intro x y _ hn; omega
    | succ n ih =>
      intro x y hstep _
      simp only [stepIter] at hstep
      cases hgy : g y with
      | none => rw [hgy] at hstep; simp at hstep
      | some z =>
        rw [hgy] at hstep
        simp at hstep
        rcases Nat.eq_zero_or_pos n with hz | hpos
        · subst hz
          simp [stepIter] at hstep
          rw [← hstep]
          exact h y z hgy
        · exact lt_trans (ih x z hstep hpos) (h y z hgy)
  intro x n hn hcontra
  exact absurd (key n x x hcontra hn) (lt_irrefl _)

/-! ## Association-list lemmas -/

theorem assocLookup_cons {β : Type} (a : String) (b : β)
    (m : List (String × β)) (x : String) :
    assocLookup ((a, b) :: m) x = if a = x then some b else assocLookup m x := by
  simp only [assocLookup, List.find?]
  by_cases h : a = x
  · simp [h]
  · simp [h]

theorem assocLookup_map_set_ne {β : Type} (m : List (String × β)) (k : String)
    (v : β) (x : String) (hx : x ≠ k) :
    assocLookup (m.map (fun kv => if kv.1 = k then (k, v) else kv)) x
      = assocLookup m x := by
  induction m with
  | nil => simp
  | cons kv rest ih =>
    by_cases hk : kv.1 = k
    · have h1 : ((kv : String × β).1 = x) = False := by
        simp only [eq_iff_iff, iff_false]
        intro h; exact hx (h ▸ hk ▸ rfl)
      simp only [List.map_cons, if_pos hk]
      rw [assocLookup_cons, assocLookup_cons]
      rw [if_neg (fun h => hx h.symm), if_neg (by simpa [eq_comm] using h1), ih]
    · simp only [List.map_cons, if_neg hk]
      cases kv with
      | mk a b =>
        rw [assocLookup_cons, assocLookup_cons]
        by_cases hax : a = x
        · simp [hax]
        · rw [if_neg hax, if_neg hax, ih]

theorem assocLookup_map_set_self {β : Type} (m : List (String × β)) (k : String)
    (v : β) (hany : m.any (fun kv => kv.1 = k) = true) :
    assocLookup (m.map (fun kv => if kv.1 = k then (k, v) else kv)) k = some v := by
  induction m with
  | nil => simp at hany
  | cons kv rest ih =>
    by_cases hk : kv.1 = k
    · simp only [List.map_cons, if_pos hk]
      rw [assocLookup_cons, if_pos rfl]
    · simp only [List.any_cons, Bool.or_eq_true, decide_eq_true_eq] at hany
      rcases hany with h | h
      · exact absurd h hk
      · simp only [List.map_cons, if_neg hk]
        cases kv with
        | mk a b =>
          rw [assocLookup_cons, if_neg (by simpa using hk)]
          exact ih (by simpa using h)

theorem assocLookup_append_new {β : Type} (m : List (String × β)) (k : String)
    (v : β) (x : String) (hany : m.any (fun kv => kv.1 = k) = false) :
    assocLookup (m ++ [(k, v)]) x = if x = k then some v else assocLookup m x := by
  induction m with
  | nil =>
    simp only [List.nil_append]
    rw [assocLookup_cons]
    by_cases h : x = k
    · simp [h]
    · rw [if_neg (fun hh => h hh.symm), if_neg h]
  | cons kv rest ih =>
    rw [List.any_cons, Bool.or_eq_false_iff] at hany
    obtain ⟨hk0, hrest⟩ := hany
    have hk : kv.1 ≠ k := by simpa using hk0
    cases kv with
    | mk a b =>
      simp only [List.cons_append]
      rw [assocLookup_cons, assocLookup_cons]
      by_cases hax : a = x
      · have : x ≠ k := fun h => hk (by simp_all)
        simp [hax, this]
      · rw [if_neg hax, if_neg hax]
        exact ih hrest

theorem assocLookup_assocSet {β : Type} (m : List (String × β)) (k : String)
    (v : β) (x : String) :
    assocLookup (assocSet m k v) x
      = if x = k then some v else assocLookup m x := by
  unfold assocSet
  by_cases hany : m.any (fun kv => kv.1 = k) = true
  · rw [if_pos hany]
    by_cases hx : x = k
    · rw [if_pos hx, hx]
      exact assocLookup_map_set_self m k v hany
    · rw [if_neg hx]
      exact assocLookup_map_set_ne m k v x hx
  · rw [if_neg hany]
    exact assocLookup_append_new m k v x (Bool.eq_false_iff.mpr hany)

theorem assocLookup_assocDelete {β : Type} (m : List (String × β)) (k x : String) :
    assocLookup (assocDelete m k) x = if x = k then none else assocLookup m x := by
  induction m with
  | nil => simp [assocDelete, assocLookup]
  | cons kv rest ih =>
    cases kv with
    | mk a b =>
      simp only [assocDelete, List.filter_cons]
      by_cases hk : a = k
      · have : (decide ¬(a, b).1 = k) = false := by simpa using hk
        rw [this]
        simp only [Bool.false_eq_true, if_false]
        rw [show List.filter (fun kv => decide (kv.1 ≠ k)) rest = assocDelete rest k from rfl, ih]
        by_cases hx : x = k
        · simp [hx]
        · have hax : ¬(a = x) := fun h => hx (h ▸ hk)
          rw [if_neg hx, if_neg hx, assocLookup_cons, if_neg hax]
      · have : (decide ¬(a, b).1 = k) = true := by simpa using hk
        rw [this]
        simp only [if_true]
        rw [assocLookup_cons]
        by_cases hax : a = x
        · have hxk : x ≠ k := fun h => hk (h ▸ hax ▸ rfl)
          rw [if_pos hax, if_neg hxk, assocLookup_cons, if_pos hax]
        · rw [if_neg hax,
            show List.filter (fun kv => decide (kv.1 ≠ k)) rest = assocDelete rest k from rfl, ih]
          by_cases hx : x = k
          · simp [hx]
          · rw [if_neg hx, if_neg hx, assocLookup_cons, if_neg hax]

/-! ## Soundness of the cycle walk -/

theorem wccLoop_some_eq (personId : String) (nodes : List PersonNode)
    (fuel : Nat) (c : String) (visited : List String) :
    wccLoop personId nodes fuel (some c) visited =
      if c = "" then false
      else if c = personId then true
      else if visited.contains c then true
      else
        match fuel with
        | 0 => true
        | fuel' + 1 =>
          wccLoop personId nodes fuel'
            ((nodes.find? (fun p => p.id = c)).bind (fun p => p.managerId))
            (c :: visited) := by
  rw [wccLoop.eq_def]

theorem wccLoop_false_avoids (personId : String) (nodes : List PersonNode) :
    ∀ fuel (visited : List String) (c : String), c ≠ "" →
      wccLoop personId nodes fuel (some c) visited = false →
      ∀ k, stepIter (mgrOf nodes) k c ≠ some personId := by
  intro fuel
  induction fuel with
  | zero =>
    intro visited c hc hfalse
    exfalso
    rw [wccLoop_some_eq, if_neg hc] at hfalse
    by_cases h1 : c = personId
    · rw [if_pos h1] at hfalse
      exact Bool.noConfusion hfalse
    · rw [if_neg h1] at hfalse
      by_cases h2 : visited.contains c = true
      · rw [if_pos h2] at hfalse
        exact Bool.noConfusion hfalse
      · rw [if_neg h2] at hfalse
        exact Bool.noConfusion hfalse
  | succ fuel ih =>
    intro visited c hc hfalse k
    rw [wccLoop_some_eq, if_neg hc] at hfalse
    have h1 : c ≠ personId := by
      intro h
      rw [if_pos h] at hfalse
      exact Bool.noConfusion hfalse
    rw [if_neg h1] at hfalse
    have h2 : ¬(visited.contains c = true) := by
      intro h
      rw [if_pos h] at hfalse
      exact Bool.noConfusion hfalse
    rw [if_neg h2] at hfalse
    cases k with
    | zero =>
      simp only [stepIter]
      intro h
      exact h1 (by simpa using h)
    | succ k =>
      simp only [stepIter]
      cases hg : mgrOf nodes c with
      | none => simp
      | some m' =>
        simp only [Option.some_bind]
        have hm' : m' ≠ "" := by
          simp only [mgrOf, truthyOpt] at hg
          cases hfind : (nodes.find? (fun p => p.id = c)).bind (fun p => p.managerId) with
          | none => rw [hfind] at hg; simp at hg
          | some s =>
            rw [hfind] at hg
            by_cases hs : s = ""
            · simp [hs] at hg
            · simp [hs] at hg
              exact hg ▸ hs
        have hraw : (nodes.find? (fun p => p.id = c)).bind (fun p => p.managerId) = some m' := by
          simp only [mgrOf, truthyOpt] at hg
          cases hfind : (nodes.find? (fun p => p.id = c)).bind (fun p => p.managerId) with
          | none => rw [hfind] at hg; simp at hg
          | some s =>
            rw [hfind] at hg
            by_cases hs : s = ""
            · simp [hs] at hg
            · simp [hs] at hg
              rw [hg]
        rw [hraw] at hfalse
        exact ih (c :: visited) m' hm' hfalse k

/-- `wouldCreateCircular = false` means the walk from the candidate manager
completed without meeting `personId`: no number of manager-graph steps from
the candidate reaches `personId`. -/
theorem wouldCreateCircular_false_avoids (personId m : String)
    (nodes : List PersonNode)
    (h : wouldCreateCircular personId (some m) nodes = false) :
    ∀ k, stepIter (mgrOf nodes) k m ≠ some personId := by
  by_cases hm : m = ""
  · simp [wouldCreateCircular, hm] at h
  · by_cases hp : personId = m
    · simp [wouldCreateCircular, hm, hp] at h
    · simp only [wouldCreateCircular, if_neg hm, if_neg hp] at h
      exact wccLoop_false_avoids personId nodes 1000 [] m hm h

/-! ## Acyclicity is preserved by batched reassignment and deletion -/

/-- Redirecting every node in `S` to the single target `m` preserves
acyclicity, provided the (old) chain from `m` never meets `S`. -/
theorem update_many_acyclic (g : String → Option String) (S : List String)
    (m : String) (hacyc : Acyclic g)
    (havoid : ∀ k p, p ∈ S → stepIter g k m ≠ some p) :
    Acyclic (fun x => if S.contains x then some m else g x) := by
  set g' : String → Option String :=
    fun x => if S.contains x then some m else g x with hg'
  have hm_notin : S.contains m = false := by
    cases h : S.contains m with
    | false => rfl
    | true =>
      exfalso
      exact havoid 0 m (by simpa using h) (by simp [stepIter])
  have L2 : ∀ k, stepIter g' k m = stepIter g k m := by
    intro k
    induction k with
    | zero => simp [stepIter]
    | succ k ihk =>
      rw [stepIter_succ_back, stepIter_succ_back, ihk]
      cases hy : stepIter g k m with
      | none => simp
      | some y =>
        simp only [Option.some_bind]
        have hyS : S.contains y = false := by
          cases h : S.contains y with
          | false => rfl
          | true =>
            exfalso
            exact havoid k y (by simpa using h) hy
        have hgy : g' y = if S.contains y = true then some m else g y := by rw [hg']
        rw [hgy, hyS]
        simp
  intro x n hn hcyc
  by_cases hvisit : ∃ k, k < n ∧ ∃ p, S.contains p = true ∧ stepIter g' k x = some p
  · obtain ⟨k, hk, p, hpS, hvk⟩ := hvisit
    have hrot : stepIter g' n p = some p := by
      have h1 : stepIter g' (k + n) x = stepIter g' n p := by
        rw [stepIter_add, hvk]
        simp
      have h2 : stepIter g' (n + k) x = some p := by
        rw [stepIter_add, hcyc]
        simpa using hvk
      rw [Nat.add_comm k n] at h1
      rw [h1] at h2
      exact h2
    have hn1 : n = (n - 1) + 1 := by omega
    rw [hn1, stepIter] at hrot
    have hgp : g' p = some m := by
      have hx : g' p = if S.contains p = true then some m else g p := by rw [hg']
      rw [hx, hpS]
      simp
    rw [hgp] at hrot
    simp only [Option.some_bind] at hrot
    rw [L2] at hrot
    exact havoid (n - 1) p (by simpa using hpS) hrot
  · push_neg at hvisit
    have heq : ∀ k, k ≤ n → stepIter g' k x = stepIter g k x := by
      intro k
      induction k with
      | zero => intro _; simp [stepIter]
      | succ k ihk =>
        intro hkn
        rw [stepIter_succ_back, stepIter_succ_back, ihk (by omega)]
        cases hy : stepIter g k x with
        | none => simp
        | some y =>
          simp only [Option.some_bind]
          have hyS : S.contains y = false := by
            cases h : S.contains y with
            | false => rfl
            | true =>
              exfalso
              have := hvisit k (by omega) y h
              rw [ihk (by omega)] at this
              exact this hy
          have hgy : g' y = if S.contains y = true then some m else g y := by rw [hg']
          rw [hgy, hyS]
          simp
    rw [heq n (le_refl n)] at hcyc
    exact hacyc x n hn hcyc

/-- Removing the outgoing edge of every node in `D` preserves acyclicity. -/
theorem delete_many_acyclic (g : String → Option String) (D : List String)
    (hacyc : Acyclic g) :
    Acyclic (fun x => if D.contains x then none else g x) := by
  set g' : String → Option String :=
    fun x => if D.contains x then none else g x with hg'
  intro x n hn hcyc
  by_cases hvisit : ∃ k, k < n ∧ ∃ p, D.contains p = true ∧ stepIter g' k x = some p
  · obtain ⟨k, hk, p, hpD, hvk⟩ := hvisit
    have hrot : stepIter g' n p = some p := by
      have h1 : stepIter g' (k + n) x = stepIter g' n p := by
        rw [stepIter_add, hvk]
        simp
      have h2 : stepIter g' (n + k) x = some p := by
        rw [stepIter_add, hcyc]
        simpa using hvk
      rw [Nat.add_comm k n] at h1
      rw [h1] at h2
      exact h2
    have hn1 : n = (n - 1) + 1 := by omega
    rw [hn1, stepIter] at hrot
    have hgp : g' p = none := by
      have hx : g' p = if D.contains p = true then none else g p := by rw [hg']
      rw [hx, hpD]
      simp
    rw [hgp] at hrot
    simp at hrot
  · push_neg at hvisit
    have heq : ∀ k, k ≤ n → stepIter g' k x = stepIter g k x := by
      intro k
      induction k with
      | zero => intro _; simp [stepIter]
      | succ k ihk =>
        intro hkn
        rw [stepIter_succ_back, stepIter_succ_back, ihk (by omega)]
        cases hy : stepIter g k x with
        | none => simp
        | some y =>
          simp only [Option.some_bind]
          have hyD : D.contains y = false := by
            cases h : D.contains y with
            | false => rfl
            | true =>
              exfalso
              have := hvisit k (by omega) y h
              rw [ihk (by omega)] at this
              exact this hy
          have hgy : g' y = if D.contains y = true then none else g y := by rw [hg']
          rw [hgy, hyD]
          simp
    rw [heq n (le_refl n)] at hcyc
    exact hacyc x n hn hcyc

/-! ## Chain termination on acyclic person sets -/

theorem stepIter_isSome_of_le (g : String → Option String) {i j : Nat}
    (hij : i ≤ j) {x : String} (h : (stepIter g j x).isSome) :
    (stepIter g i x).isSome := by
  obtain ⟨d, rfl⟩ := Nat.exists_eq_add_of_le hij
  rw [stepIter_add] at h
  cases hi : stepIter g i x with
  | none => rw [hi] at h; simp at h
  | some y => simp

theorem mem_idsOf_of_mgrOf_isSome (personNodes : List PersonNode) (x : String)
    (h : (mgrOf personNodes x).isSome) : x ∈ idsOf personNodes := by
  simp only [mgrOf] at h
  cases hfind : personNodes.find? (fun p => p.id = x) with
  | none => rw [hfind] at h; simp [truthyOpt] at h
  | some q =>
    have hq := List.mem_of_find?_eq_some hfind
    have hid : q.id = x := by simpa using List.find?_some hfind
    simp only [idsOf, List.mem_map]
    exact ⟨q, hq, hid⟩

/-- On a duplicate-free, acyclic person set every manager chain runs out
within `length + 1` steps: the budgets used by the embedded walks are never
exhausted. -/
theorem chain_terminates (personNodes : List PersonNode)
    (hacyc : Acyclic (mgrOf personNodes)) (x : String) :
    stepIter (mgrOf personNodes) (personNodes.length + 1) x = none := by
  set g := mgrOf personNodes with hg
  set N := personNodes.length with hN
  by_contra hsome'
  have hsome : ∀ i, i ≤ N + 1 → (stepIter g i x).isSome := by
    intro i hi
    apply stepIter_isSome_of_le g hi
    cases h : stepIter g (N + 1) x with
    | none => exact absurd h hsome'
    | some y => simp
  set a : Nat → String := fun i => (stepIter g i x).getD "" with ha
  have haval : ∀ i, i ≤ N + 1 → stepIter g i x = some (a i) := by
    intro i hi
    have := hsome i hi
    cases h : stepIter g i x with
    | none => rw [h] at this; simp at this
    | some y => simp [ha, h]
  have hdist : ∀ i j, i < j → j ≤ N + 1 → a i ≠ a j := by
    intro i j hij hj heq
    have h1 := haval i (by omega)
    have h2 := haval j hj
    have hd : j = i + (j - i) := by omega
    rw [hd, stepIter_add, h1] at h2
    simp only [Option.some_bind] at h2
    have hjj : i + (j - i) = j := by omega
    rw [hjj] at h2
    rw [← heq] at h2
    exact hacyc (a i) (j - i) (by omega) h2
  have hmem : ∀ i, i ≤ N → a i ∈ idsOf personNodes := by
    intro i hi
    apply mem_idsOf_of_mgrOf_isSome
    have h1 := haval i (by omega)
    have h2 := haval (i + 1) (by omega)
    rw [stepIter_add, h1] at h2
    simp only [Option.some_bind] at h2
    rw [show stepIter g 1 (a i) = (g (a i)).bind (stepIter g 0) from rfl] at h2
    cases hgi : g (a i) with
    | none => rw [hgi] at h2; simp at h2
    | some y => simp [hg] at hgi; rw [hgi]; simp
  set L : List String := (List.range (N + 1)).map a with hL
  have hLnodup : L.Nodup := by
    apply List.Nodup.map_on
    · intro i hi j hj hija
      by_contra hne
      rcases Nat.lt_or_ge i j with h | h
      · exact hdist i j h (by simp at hj; omega) hija
      · have : j < i := by omega
        exact hdist j i this (by simp at hi; omega) hija.symm
    · exact List.nodup_range _
  have hLsub : L ⊆ idsOf personNodes := by
    intro y hy
    simp only [hL, List.mem_map, List.mem_range] at hy
    obtain ⟨i, hi, rfl⟩ := hy
    exact hmem i (by omega)
  have hlen : L.length ≤ (idsOf personNodes).length :=
    (hLnodup.subperm hLsub).length_le
  have hL1 : L.length = N + 1 := by simp [hL]
  have hL2 : (idsOf personNodes).length = N := by simp [idsOf, hN]
  omega

/-! ## How the store mutations transform the manager graph -/

theorem find?_id_isSome_iff (nodes : List PersonNode) (x : String) :
    (nodes.find? (fun p => p.id = x)).isSome = true ↔ x ∈ idsOf nodes := by
  rw [List.find?_isSome]
  simp [idsOf]

theorem mgrOf_eq_none_of_not_mem (nodes : List PersonNode) (x : String)
    (hx : x ∉ idsOf nodes) : mgrOf nodes x = none := by
  cases hfind : nodes.find? (fun p => p.id = x) with
  | none => simp [mgrOf, hfind, truthyOpt]
  | some q =>
    exfalso
    apply hx
    rw [← find?_id_isSome_iff]
    simp [hfind]

theorem mgrOf_map (nodes : List PersonNode) (f : PersonNode → PersonNode)
    (hf : ∀ n, (f n).id = n.id) (x : String) :
    mgrOf (nodes.map f) x
      = truthyOpt ((nodes.find? (fun p => p.id = x)).bind
          (fun q => (f q).managerId)) := by
  simp only [mgrOf]
  rw [List.find?_map]
  have hpred : ((fun p => decide (p.id = x)) ∘ f) = fun p => decide (p.id = x) := by
    funext n
    simp [hf n]
  rw [hpred]
  cases nodes.find? (fun p => decide (p.id = x)) with
  | none => simp
  | some q => simp

/-- Effect of `setManager`'s node update on the manager graph. -/
theorem mgrOf_setManager_nodes (nodes : List PersonNode) (personId : String)
    (mid : Option String) (x : String) :
    mgrOf (nodes.map (fun node =>
        if node.id = personId then { node with managerId := mid } else node)) x
      = if x = personId ∧ x ∈ idsOf nodes then truthyOpt mid
        else mgrOf nodes x := by
  rw [mgrOf_map]
  · cases hfind : nodes.find? (fun p => p.id = x) with
    | none =>
      have hx : x ∉ idsOf nodes := by
        rw [← find?_id_isSome_iff]
        simp [hfind]
      rw [if_neg (fun h => hx h.2)]
      simp [mgrOf, hfind, truthyOpt]
    | some q =>
      have hqid : q.id = x := by simpa using List.find?_some hfind
      have hmem : x ∈ idsOf nodes := by
        rw [← find?_id_isSome_iff]
        simp [hfind]
      simp only [Option.some_bind]
      by_cases hxp : x = personId
      · have hmem' : personId ∈ idsOf nodes := hxp ▸ hmem
        simp [hqid, hxp, hmem']
      · simp [hqid, hxp, mgrOf, hfind]
  · intro n
    by_cases h : n.id = personId <;> simp [h]

/-- Effect of `bulkSetManager`'s node update on the manager graph. -/
theorem mgrOf_bulk_nodes (nodes : List PersonNode) (personIds : List String)
    (mid : Option String) (x : String) :
    mgrOf (nodes.map (fun node =>
        if personIds.contains node.id then
          if jsTruthy mid && wouldCreateCircular node.id mid nodes then node
          else { node with managerId := mid }
        else node)) x
      = if (personIds.contains x
            && !(jsTruthy mid && wouldCreateCircular x mid nodes)) = true
            ∧ x ∈ idsOf nodes
        then truthyOpt mid
        else mgrOf nodes x := by
  rw [mgrOf_map]
  · cases hfind : nodes.find? (fun p => p.id = x) with
    | none =>
      have hx : x ∉ idsOf nodes := by
        rw [← find?_id_isSome_iff]
        simp [hfind]
      rw [if_neg (fun h => hx h.2)]
      simp [mgrOf, hfind, truthyOpt]
    | some q =>
      have hqid : q.id = x := by simpa using List.find?_some hfind
      have hmem : x ∈ idsOf nodes := by
        rw [← find?_id_isSome_iff]
        simp [hfind]
      simp only [Option.some_bind]
      by_cases hin : personIds.contains x = true
      · by_cases hguard : (jsTruthy mid && wouldCreateCircular x mid nodes) = true
        · have hin' : x ∈ personIds := by simpa using hin
          simp [hqid, hin', hguard, mgrOf, hfind]
        · have hin' : x ∈ personIds := by simpa using hin
          simp [hqid, hin', hguard, hmem, mgrOf, hfind]
      · have hin' : x ∉ personIds := by simpa using hin
        simp [hqid, hin', mgrOf, hfind]
  · intro n
    split
    · split <;> rfl
    · rfl

/-- A node map that only changes positions leaves the manager graph and the
id list unchanged. -/
theorem mgrOf_map_position (nodes : List PersonNode)
    (posOf : PersonNode → Pos) (x : String) :
    mgrOf (nodes.map (fun person => { person with position := posOf person })) x
      = mgrOf nodes x := by
  rw [mgrOf_map]
  · cases hfind : nodes.find? (fun p => p.id = x) with
    | none => simp [mgrOf, hfind]
    | some q => simp [mgrOf, hfind]
  · intro n
    rfl

theorem idsOf_map (nodes : List PersonNode) (f : PersonNode → PersonNode)
    (hf : ∀ n, (f n).id = n.id) : idsOf (nodes.map f) = idsOf nodes := by
  simp only [idsOf, List.map_map]
  exact List.map_congr_left (fun a _ => hf a)

/-! ## The canonical-map folds of `bulkSetManager` -/

theorem foldl_assocDelete_lookup (personIds : List String)
    (acc : List (String × String)) (x : String) :
    assocLookup (personIds.foldl (fun m personId => assocDelete m personId) acc) x
      = if personIds.contains x then none else assocLookup acc x := by
  induction personIds generalizing acc with
  | nil => simp
  | cons p rest ih =>
    simp only [List.foldl_cons]
    rw [ih, assocLookup_assocDelete]
    by_cases hx : x = p
    · simp [hx]
    · by_cases hr : rest.contains x = true
      · simp [hx, hr]
      · simp [hx, hr]

theorem foldl_assocSetGuard_lookup (nodes : List PersonNode) (midv : String)
    (personIds : List String) (acc : List (String × String)) (x : String) :
    assocLookup (personIds.foldl (fun m personId =>
        if wouldCreateCircular personId (some midv) nodes then m
        else assocSet m personId midv) acc) x
      = if (personIds.contains x
            && !wouldCreateCircular x (some midv) nodes) = true
        then some midv else assocLookup acc x := by
  induction personIds generalizing acc with
  | nil => simp
  | cons p rest ih =>
    simp only [List.foldl_cons]
    rw [ih]
    by_cases hwx : wouldCreateCircular x (some midv) nodes = true
    · have hc1 : (rest.contains x && !wouldCreateCircular x (some midv) nodes) = false := by
        simp [hwx]
      have hc2 : ((p :: rest).contains x && !wouldCreateCircular x (some midv) nodes) = false := by
        simp [hwx]
      rw [hc1, hc2]
      simp only [Bool.false_eq_true, if_false]
      by_cases hwp : wouldCreateCircular p (some midv) nodes = true
      · rw [if_pos hwp]
      · rw [if_neg hwp, assocLookup_assocSet]
        have hxp : x ≠ p := by
          intro h
          rw [h] at hwx
          exact hwp hwx
        rw [if_neg hxp]
    · have hb : (!wouldCreateCircular x (some midv) nodes) = true := by
        simp [hwx]
      simp only [hb, Bool.and_true]
      by_cases hr : rest.contains x = true
      · rw [if_pos hr]
        have : (p :: rest).contains x = true := by
          simp only [List.contains_cons, hr, Bool.or_true]
        rw [this]
        simp
      · rw [if_neg hr]
        by_cases hxp : x = p
        · subst hxp
          rw [if_neg hwx, assocLookup_assocSet, if_pos rfl]
          have : (x :: rest).contains x = true := by simp
          rw [this]
          simp
        · have hcc : (p :: rest).contains x = false := by
            simp only [List.contains_cons]
            have h1 : (x == p) = false := by
              simp only [beq_eq_false_iff_ne, ne_eq]
              exact hxp
            have h2 : rest.contains x = false := Bool.eq_false_iff.mpr hr
            rw [h1, h2]
            rfl
          rw [hcc]
          simp only [Bool.false_eq_true, if_false]
          by_cases hwp : wouldCreateCircular p (some midv) nodes = true
          · rw [if_pos hwp]
          · rw [if_neg hwp, assocLookup_assocSet, if_neg hxp]

/-! ## `rebuildChart` preserves the relationship state -/

theorem rebuildChart_eq_some (st : OrgState) (deps : List Department)
    (hdeps : st.departments = some deps) :
    rebuildChart st = some { st with
      personNodes := st.personNodes.map (fun person =>
        { person with position :=
            (assocLookup (rebuildPositions st deps) person.id).getD person.position }) } := by
  unfold rebuildChart
  rw [hdeps]

theorem rebuildChart_preserves (st st' : OrgState)
    (h : rebuildChart st = some st') :
    st'.departments = st.departments
    ∧ st'.managerAssignments = st.managerAssignments
    ∧ st'.collapsedNodes = st.collapsedNodes
    ∧ st'.error = st.error
    ∧ idsOf st'.personNodes = idsOf st.personNodes
    ∧ (∀ x, mgrOf st'.personNodes x = mgrOf st.personNodes x) := by
  cases hdeps : st.departments with
  | none => rw [rebuildChart, hdeps] at h; exact absurd h (by simp)
  | some deps =>
    rw [rebuildChart_eq_some st deps hdeps] at h
    injection h with h2
    subst h2
    refine ⟨?_, ?_, ?_, ?_, ?_, ?_⟩
    · exact hdeps
    · rfl
    · rfl
    · rfl
    · exact idsOf_map _ _ (fun n => rfl)
    · intro x
      exact mgrOf_map_position _ _ x

/-! ## The manager mutations preserve the store invariant -/

theorem StoreInv_rebuild (st1 st2 : OrgState) (h : rebuildChart st1 = some st2)
    (hinv : StoreInv st1) :
    StoreInv st2 ∧ idsOf st2.personNodes = idsOf st1.personNodes := by
  obtain ⟨hdeps, hcons, hacyc⟩ := hinv
  obtain ⟨h1, h2, _, _, h5, h6⟩ := rebuildChart_preserves st1 st2 h
  refine ⟨⟨?_, ?_, ?_⟩, h5⟩
  · rw [h1]; exact hdeps
  · intro x
    rw [h2, h6 x]
    exact hcons x
  · exact acyclic_congr (fun x => (h6 x).symm) hacyc

theorem setManager_inv (st : OrgState) (personId : String) (mid : Option String)
    (hinv : StoreInv st) (hp : personId ∈ idsOf st.personNodes) :
    ∃ st' b, setManager st personId mid false = some (st', b) ∧ StoreInv st'
      ∧ idsOf st'.personNodes = idsOf st.personNodes := by
  obtain ⟨hdeps, hcons, hacyc⟩ := hinv
  by_cases hguard :
      (jsTruthy mid && wouldCreateCircular personId mid st.personNodes) = true
  · refine ⟨{ st with
        error := some "Cannot assign manager: would create circular reference" },
      false, ?_, ⟨hdeps, hcons, hacyc⟩, rfl⟩
    unfold setManager
    rw [if_pos hguard]
  · cases hd : st.departments with
    | none => rw [hd] at hdeps; simp at hdeps
    | some deps =>
      cases mid with
      | none =>
        have heq : setManager st personId none false
            = (rebuildChart { st with
                personNodes := st.personNodes.map (fun node =>
                  if node.id = personId then { node with managerId := none } else node),
                managerAssignments := assocDelete st.managerAssignments personId,
                error := none }).map (fun st2 => (st2, true)) := by
          unfold setManager
          rw [if_neg hguard]
          rfl
        have hinv1 : StoreInv { st with
            personNodes := st.personNodes.map (fun node =>
              if node.id = personId then { node with managerId := none } else node),
            managerAssignments := assocDelete st.managerAssignments personId,
            error := none } := by
          refine ⟨hdeps, ?_, ?_⟩
          · intro x
            show assocLookup (assocDelete st.managerAssignments personId) x = _
            rw [assocLookup_assocDelete, mgrOf_setManager_nodes]
            by_cases hx : x = personId
            · rw [if_pos hx, if_pos ⟨hx, hx ▸ hp⟩]
              rfl
            · rw [if_neg hx, if_neg (fun h => hx h.1)]
              exact hcons x
          · show Acyclic (mgrOf (st.personNodes.map (fun node =>
              if node.id = personId then { node with managerId := none } else node)))
            apply acyclic_congr _ (delete_many_acyclic (mgrOf st.personNodes) [personId] hacyc)
            intro x
            rw [mgrOf_setManager_nodes]
            by_cases hx : x = personId
            · rw [if_pos (by simp [hx]), if_pos ⟨hx, hx ▸ hp⟩]
              rfl
            · rw [if_neg (by simp [hx]), if_neg (fun h => hx h.1)]
        obtain ⟨st2, h2eq⟩ : ∃ st2, rebuildChart { st with
            personNodes := st.personNodes.map (fun node =>
              if node.id = personId then { node with managerId := none } else node),
            managerAssignments := assocDelete st.managerAssignments personId,
            error := none } = some st2 :=
          ⟨_, rebuildChart_eq_some _ deps hd⟩
        obtain ⟨hinv2, hids2⟩ := StoreInv_rebuild _ _ h2eq hinv1
        refine ⟨st2, true, ?_, hinv2, ?_⟩
        · rw [heq, h2eq]
          rfl
        · rw [hids2]
          exact idsOf_map _ _ (fun n => by split <;> rfl)
      | some midv =>
        by_cases hmid : midv = ""
        · subst hmid
          have heq : setManager st personId (some "") false
              = (rebuildChart { st with
                  personNodes := st.personNodes.map (fun node =>
                    if node.id = personId then { node with managerId := some "" } else node),
                  managerAssignments := assocDelete st.managerAssignments personId,
                  error := none }).map (fun st2 => (st2, true)) := by
            unfold setManager
            rw [if_neg hguard]
            rfl
          have hinv1 : StoreInv { st with
              personNodes := st.personNodes.map (fun node =>
                if node.id = personId then { node with managerId := some "" } else node),
              managerAssignments := assocDelete st.managerAssignments personId,
              error := none } := by
            refine ⟨hdeps, ?_, ?_⟩
            · intro x
              show assocLookup (assocDelete st.managerAssignments personId) x = _
              rw [assocLookup_assocDelete, mgrOf_setManager_nodes]
              by_cases hx : x = personId
              · rw [if_pos hx, if_pos ⟨hx, hx ▸ hp⟩]
                rfl
              · rw [if_neg hx, if_neg (fun h => hx h.1)]
                exact hcons x
            · show Acyclic (mgrOf (st.personNodes.map (fun node =>
                if node.id = personId then { node with managerId := some "" } else node)))
              apply acyclic_congr _ (delete_many_acyclic (mgrOf st.personNodes) [personId] hacyc)
              intro x
              rw [mgrOf_setManager_nodes]
              by_cases hx : x = personId
              · rw [if_pos (by simp [hx]), if_pos ⟨hx, hx ▸ hp⟩]
                rfl
              · rw [if_neg (by simp [hx]), if_neg (fun h => hx h.1)]
          obtain ⟨st2, h2eq⟩ : ∃ st2, rebuildChart { st with
              personNodes := st.personNodes.map (fun node =>
                if node.id = personId then { node with managerId := some "" } else node),
              managerAssignments := assocDelete st.managerAssignments personId,
              error := none } = some st2 :=
            ⟨_, rebuildChart_eq_some _ deps hd⟩
          obtain ⟨hinv2, hids2⟩ := StoreInv_rebuild _ _ h2eq hinv1
          refine ⟨st2, true, ?_, hinv2, ?_⟩
          · rw [heq, h2eq]
            rfl
          · rw [hids2]
            exact idsOf_map _ _ (fun n => by split <;> rfl)
        · have hwcc : wouldCreateCircular personId (some midv) st.personNodes = false := by
            cases hw : wouldCreateCircular personId (some midv) st.personNodes with
            | false => rfl
            | true =>
              exfalso
              apply hguard
              simp [jsTruthy, hmid, hw]
          have heq : setManager st personId (some midv) false
              = (rebuildChart { st with
                  personNodes := st.personNodes.map (fun node =>
                    if node.id = personId then { node with managerId := some midv } else node),
                  managerAssignments := assocSet st.managerAssignments personId midv,
                  error := none }).map (fun st2 => (st2, true)) := by
            unfold setManager
            rw [if_neg hguard]
            show (let newAssignments := if midv = "" then assocDelete st.managerAssignments personId
                    else assocSet st.managerAssignments personId midv
                  let st1 : OrgState := { st with
                    personNodes := st.personNodes.map (fun node =>
                      if node.id = personId then { node with managerId := some midv } else node),
                    managerAssignments := newAssignments,
                    error := none }
                  if false = true then some (st1, true)
                  else (rebuildChart st1).map (fun st2 => (st2, true))) = _
            simp only [if_neg hmid]
            rfl
          have hinv1 : StoreInv { st with
              personNodes := st.personNodes.map (fun node =>
                if node.id = personId then { node with managerId := some midv } else node),
              managerAssignments := assocSet st.managerAssignments personId midv,
              error := none } := by
            refine ⟨hdeps, ?_, ?_⟩
            · intro x
              show assocLookup (assocSet st.managerAssignments personId midv) x = _
              rw [assocLookup_assocSet, mgrOf_setManager_nodes]
              by_cases hx : x = personId
              · rw [if_pos hx, if_pos ⟨hx, hx ▸ hp⟩]
                simp [truthyOpt, hmid]
              · rw [if_neg hx, if_neg (fun h => hx h.1)]
                exact hcons x
            · show Acyclic (mgrOf (st.personNodes.map (fun node =>
                if node.id = personId then { node with managerId := some midv } else node)))
              have hupd : Acyclic (fun x =>
                  if [personId].contains x then some midv else mgrOf st.personNodes x) := by
                apply update_many_acyclic _ _ _ hacyc
                intro k q hq
                have hqp : q = personId := by simpa using hq
                subst hqp
                exact wouldCreateCircular_false_avoids q midv st.personNodes hwcc k
              apply acyclic_congr _ hupd
              intro x
              rw [mgrOf_setManager_nodes]
              by_cases hx : x = personId
              · rw [if_pos (by simp [hx]), if_pos ⟨hx, hx ▸ hp⟩]
                simp [truthyOpt, hmid]
              · rw [if_neg (by simp [hx]), if_neg (fun h => hx h.1)]
          obtain ⟨st2, h2eq⟩ : ∃ st2, rebuildChart { st with
              personNodes := st.personNodes.map (fun node =>
                if node.id = personId then { node with managerId := some midv } else node),
              managerAssignments := assocSet st.managerAssignments personId midv,
              error := none } = some st2 :=
            ⟨_, rebuildChart_eq_some _ deps hd⟩
          obtain ⟨hinv2, hids2⟩ := StoreInv_rebuild _ _ h2eq hinv1
          refine ⟨st2, true, ?_, hinv2, ?_⟩
          · rw [heq, h2eq]
            rfl
          · rw [hids2]
            exact idsOf_map _ _ (fun n => by split <;> rfl)

theorem truthyOpt_eq_none_of_falsy (mid : Option String)
    (h : jsTruthy mid = false) : truthyOpt mid = none := by
  cases mid with
  | none => rfl
  | some s =>
    have hs : s = "" := by
      by_contra hs
      simp [jsTruthy, hs] at h
    simp [truthyOpt, hs]

/-- Shared invariant core for `bulkSetManager` with a falsy manager id
(`none` or `""`): the canonical map loses the keys, the node graph loses the
edges, and both stay in agreement and acyclic. -/
theorem bulk_falsy_parts (st : OrgState) (personIds : List String)
    (mid : Option String) (hft : jsTruthy mid = false)
    (hcons : ∀ x, assocLookup st.managerAssignments x = mgrOf st.personNodes x)
    (hacyc : Acyclic (mgrOf st.personNodes)) :
    (∀ x, assocLookup (personIds.foldl (fun m p => assocDelete m p)
        st.managerAssignments) x
      = mgrOf (st.personNodes.map (fun node =>
          if personIds.contains node.id then
            if jsTruthy mid && wouldCreateCircular node.id mid st.personNodes then node
            else { node with managerId := mid }
          else node)) x)
    ∧ Acyclic (mgrOf (st.personNodes.map (fun node =>
        if personIds.contains node.id then
          if jsTruthy mid && wouldCreateCircular node.id mid st.personNodes then node
          else { node with managerId := mid }
        else node))) := by
  have hgraph : ∀ x, mgrOf (st.personNodes.map (fun node =>
      if personIds.contains node.id then
        if jsTruthy mid && wouldCreateCircular node.id mid st.personNodes then node
        else { node with managerId := mid }
      else node)) x
      = if personIds.contains x then none else mgrOf st.personNodes x := by
    intro x
    rw [mgrOf_bulk_nodes]
    by_cases hcx : personIds.contains x = true
    · rw [if_pos hcx]
      have hmx : x ∈ personIds := by simpa using hcx
      by_cases hmem : x ∈ idsOf st.personNodes
      · rw [if_pos ⟨by simp [hft, hmx], hmem⟩]
        exact truthyOpt_eq_none_of_falsy mid hft
      · rw [if_neg (fun h => hmem h.2)]
        exact mgrOf_eq_none_of_not_mem _ _ hmem
    · rw [if_neg hcx, if_neg (fun h => hcx (Bool.and_eq_true_iff.mp h.1).1)]
  constructor
  · intro x
    rw [foldl_assocDelete_lookup, hgraph]
    by_cases hcx : personIds.contains x = true
    · rw [if_pos hcx, if_pos hcx]
    · rw [if_neg hcx, if_neg hcx]
      exact hcons x
  · apply acyclic_congr _ (delete_many_acyclic (mgrOf st.personNodes) personIds hacyc)
    intro x
    rw [hgraph]

/-- Shared invariant core for `bulkSetManager` with a truthy manager id. -/
theorem bulk_truthy_parts (st : OrgState) (personIds : List String)
    (midv : String) (hmid : midv ≠ "")
    (hcons : ∀ x, assocLookup st.managerAssignments x = mgrOf st.personNodes x)
    (hacyc : Acyclic (mgrOf st.personNodes))
    (hps : ∀ p ∈ personIds, p ∈ idsOf st.personNodes) :
    (∀ x, assocLookup (personIds.foldl (fun m personId =>
        if wouldCreateCircular personId (some midv) st.personNodes then m
        else assocSet m personId midv) st.managerAssignments) x
      = mgrOf (st.personNodes.map (fun node =>
          if personIds.contains node.id then
            if jsTruthy (some midv) && wouldCreateCircular node.id (some midv) st.personNodes then node
            else { node with managerId := some midv }
          else node)) x)
    ∧ Acyclic (mgrOf (st.personNodes.map (fun node =>
        if personIds.contains node.id then
          if jsTruthy (some midv) && wouldCreateCircular node.id (some midv) st.personNodes then node
          else { node with managerId := some midv }
        else node))) := by
  have hjt : jsTruthy (some midv) = true := by simp [jsTruthy, hmid]
  have hgraph : ∀ x, mgrOf (st.personNodes.map (fun node =>
      if personIds.contains node.id then
        if jsTruthy (some midv) && wouldCreateCircular node.id (some midv) st.personNodes then node
        else { node with managerId := some midv }
      else node)) x
      = if (personIds.contains x
            && !wouldCreateCircular x (some midv) st.personNodes) = true
        then some midv else mgrOf st.personNodes x := by
    intro x
    rw [mgrOf_bulk_nodes]
    by_cases hsel : (personIds.contains x
        && !wouldCreateCircular x (some midv) st.personNodes) = true
    · obtain ⟨h1, h2⟩ := Bool.and_eq_true_iff.mp hsel
      have hm1 : x ∈ personIds := by simpa using h1
      have hmem : x ∈ idsOf st.personNodes := hps x hm1
      have hw2 : wouldCreateCircular x (some midv) st.personNodes = false := by
        simpa using h2
      rw [if_pos hsel, if_pos ⟨by simp [hjt, hm1, hw2], hmem⟩]
      simp [truthyOpt, hmid]
    · rw [if_neg hsel, if_neg ?_]
      intro hcontra
      apply hsel
      obtain ⟨h1, hmem⟩ := hcontra
      rw [hjt] at h1
      simpa using h1
  constructor
  · intro x
    rw [foldl_assocSetGuard_lookup, hgraph]
    by_cases hsel : (personIds.contains x
        && !wouldCreateCircular x (some midv) st.personNodes) = true
    · rw [if_pos hsel, if_pos hsel]
    · rw [if_neg hsel, if_neg hsel]
      exact hcons x
  · have hupd : Acyclic (fun x =>
        if (personIds.filter (fun p =>
            !wouldCreateCircular p (some midv) st.personNodes)).contains x
        then some midv else mgrOf st.personNodes x) := by
      apply update_many_acyclic _ _ _ hacyc
      intro k q hq
      rw [List.mem_filter] at hq
      obtain ⟨_, hq2⟩ := hq
      have hwq : wouldCreateCircular q (some midv) st.personNodes = false := by
        simpa using hq2
      exact wouldCreateCircular_false_avoids q midv st.personNodes hwq k
    apply acyclic_congr _ hupd
    intro x
    rw [hgraph]
    have hiff : (personIds.filter (fun p =>
        !wouldCreateCircular p (some midv) st.personNodes)).contains x
        = (personIds.contains x && !wouldCreateCircular x (some midv) st.personNodes) := by
      by_cases hsel : (personIds.contains x
          && !wouldCreateCircular x (some midv) st.personNodes) = true
      · rw [hsel]
        obtain ⟨h1, h2⟩ := Bool.and_eq_true_iff.mp hsel
        have : x ∈ personIds.filter (fun p =>
            !wouldCreateCircular p (some midv) st.personNodes) := by
          rw [List.mem_filter]
          exact ⟨by simpa using h1, h2⟩
        simpa using this
      · rw [Bool.eq_false_iff.mpr hsel]
        have : x ∉ personIds.filter (fun p =>
            !wouldCreateCircular p (some midv) st.personNodes) := by
          rw [List.mem_filter]
          intro ⟨h1, h2⟩
          apply hsel
          refine Bool.and_eq_true_iff.mpr ⟨by simpa using h1, h2⟩
        simpa using this
    rw [hiff]

theorem bulkSetManager_inv (st : OrgState) (personIds : List String)
    (mid : Option String) (hinv : StoreInv st)
    (hps : ∀ p ∈ personIds, p ∈ idsOf st.personNodes) :
    ∃ st' n, bulkSetManager st personIds mid = some (st', n) ∧ StoreInv st'
      ∧ idsOf st'.personNodes = idsOf st.personNodes := by
  obtain ⟨hdeps, hcons, hacyc⟩ := hinv
  cases hd : st.departments with
  | none => rw [hd] at hdeps; simp at hdeps
  | some deps =>
    have hidsmap : ∀ (mid' : Option String),
        idsOf (st.personNodes.map (fun node =>
          if personIds.contains node.id then
            if jsTruthy mid' && wouldCreateCircular node.id mid' st.personNodes then node
            else { node with managerId := mid' }
          else node)) = idsOf st.personNodes := by
      intro mid'
      apply idsOf_map
      intro n
      split
      · split <;> rfl
      · rfl
    cases mid with
    | none =>
      have heq : bulkSetManager st personIds none
          = (rebuildChart { st with
              personNodes := st.personNodes.map (fun node =>
                if personIds.contains node.id then
                  if jsTruthy none && wouldCreateCircular node.id none st.personNodes then node
                  else { node with managerId := none }
                else node),
              managerAssignments := personIds.foldl (fun m p => assocDelete m p)
                st.managerAssignments,
              error := if (personIds.filter (fun personId =>
                  jsTruthy none && wouldCreateCircular personId none st.personNodes)).length > 0
                then some (toString (personIds.filter (fun personId =>
                  jsTruthy none && wouldCreateCircular personId none st.personNodes)).length
                  ++ " assignment(s) skipped due to circular reference")
                else none }).map (fun st2 => (st2,
              personIds.length - (personIds.filter (fun personId =>
                jsTruthy none && wouldCreateCircular personId none st.personNodes)).length)) := by
        unfold bulkSetManager
        rfl
      obtain ⟨hcons1, hacyc1⟩ :=
        bulk_falsy_parts st personIds none rfl hcons hacyc
      obtain ⟨st2, h2eq⟩ : ∃ st2, rebuildChart { st with
          personNodes := st.personNodes.map (fun node =>
            if personIds.contains node.id then
              if jsTruthy none && wouldCreateCircular node.id none st.personNodes then node
              else { node with managerId := none }
            else node),
          managerAssignments := personIds.foldl (fun m p => assocDelete m p)
            st.managerAssignments,
          error := if (personIds.filter (fun personId =>
              jsTruthy none && wouldCreateCircular personId none st.personNodes)).length > 0
            then some (toString (personIds.filter (fun personId =>
              jsTruthy none && wouldCreateCircular personId none st.personNodes)).length
              ++ " assignment(s) skipped due to circular reference")
            else none } = some st2 :=
        ⟨_, rebuildChart_eq_some _ deps hd⟩
      obtain ⟨hinv2, hids2⟩ := StoreInv_rebuild _ _ h2eq ⟨hdeps, hcons1, hacyc1⟩
      refine ⟨st2, personIds.length - (personIds.filter (fun personId =>
        jsTruthy none && wouldCreateCircular personId none st.personNodes)).length,
        ?_, hinv2, ?_⟩
      · rw [heq, h2eq]
        rfl
      · rw [hids2]
        exact hidsmap none
    | some midv =>
      have heq : bulkSetManager st personIds (some midv)
          = (rebuildChart { st with
              personNodes := st.personNodes.map (fun node =>
                if personIds.contains node.id then
                  if jsTruthy (some midv) && wouldCreateCircular node.id (some midv) st.personNodes then node
                  else { node with managerId := some midv }
                else node),
              managerAssignments := personIds.foldl (fun m personId =>
                if midv = "" then assocDelete m personId
                else if wouldCreateCircular personId (some midv) st.personNodes then m
                else assocSet m personId midv) st.managerAssignments,
              error := if (personIds.filter (fun personId =>
                  jsTruthy (some midv) && wouldCreateCircular personId (some midv) st.personNodes)).length > 0
                then some (toString (personIds.filter (fun personId =>
                  jsTruthy (some midv) && wouldCreateCircular personId (some midv) st.personNodes)).length
                  ++ " assignment(s) skipped due to circular reference")
                else none }).map (fun st2 => (st2,
              personIds.length - (personIds.filter (fun personId =>
                jsTruthy (some midv) && wouldCreateCircular personId (some midv) st.personNodes)).length)) := by
        unfold bulkSetManager
        rfl
      by_cases hmid : midv = ""
      · subst hmid
        have hfold : (fun (m : List (String × String)) (personId : String) =>
            if ("" : String) = "" then assocDelete m personId
            else if wouldCreateCircular personId (some "") st.personNodes then m
            else assocSet m personId "")
            = fun m p => assocDelete m p := by
          funext m p
          rw [if_pos rfl]
        rw [hfold] at heq
        obtain ⟨hcons1, hacyc1⟩ :=
          bulk_falsy_parts st personIds (some "") rfl hcons hacyc
        obtain ⟨st2, h2eq⟩ : ∃ st2, rebuildChart { st with
            personNodes := st.personNodes.map (fun node =>
              if personIds.contains node.id then
                if jsTruthy (some "") && wouldCreateCircular node.id (some "") st.personNodes then node
                else { node with managerId := some "" }
              else node),
            managerAssignments := personIds.foldl (fun m p => assocDelete m p)
              st.managerAssignments,
            error := if (personIds.filter (fun personId =>
                jsTruthy (some "") && wouldCreateCircular personId (some "") st.personNodes)).length > 0
              then some (toString (personIds.filter (fun personId =>
                jsTruthy (some "") && wouldCreateCircular personId (some "") st.personNodes)).length
                ++ " assignment(s) skipped due to circular reference")
              else none } = some st2 :=
          ⟨_, rebuildChart_eq_some _ deps hd⟩
        obtain ⟨hinv2, hids2⟩ := StoreInv_rebuild _ _ h2eq ⟨hdeps, hcons1, hacyc1⟩
        refine ⟨st2, personIds.length - (personIds.filter (fun personId =>
          jsTruthy (some "") && wouldCreateCircular personId (some "") st.personNodes)).length,
          ?_, hinv2, ?_⟩
        · rw [heq, h2eq]
          rfl
        · rw [hids2]
          exact hidsmap (some "")
      · have hfold : (fun (m : List (String × String)) (personId : String) =>
            if midv = "" then assocDelete m personId
            else if wouldCreateCircular personId (some midv) st.personNodes then m
            else assocSet m personId midv)
            = fun m personId =>
              if wouldCreateCircular personId (some midv) st.personNodes then m
              else assocSet m personId midv := by
          funext m p
          rw [if_neg hmid]
        rw [hfold] at heq
        obtain ⟨hcons1, hacyc1⟩ :=
          bulk_truthy_parts st personIds midv hmid hcons hacyc hps
        obtain ⟨st2, h2eq⟩ : ∃ st2, rebuildChart { st with
            personNodes := st.personNodes.map (fun node =>
              if personIds.contains node.id then
                if jsTruthy (some midv) && wouldCreateCircular node.id (some midv) st.personNodes then node
                else { node with managerId := some midv }
              else node),
            managerAssignments := personIds.foldl (fun m personId =>
              if wouldCreateCircular personId (some midv) st.personNodes then m
              else assocSet m personId midv) st.managerAssignments,
            error := if (personIds.filter (fun personId =>
                jsTruthy (some midv) && wouldCreateCircular personId (some midv) st.personNodes)).length > 0
              then some (toString (personIds.filter (fun personId =>
                jsTruthy (some midv) && wouldCreateCircular personId (some midv) st.personNodes)).length
                ++ " assignment(s) skipped due to circular reference")
              else none } = some st2 :=
          ⟨_, rebuildChart_eq_some _ deps hd⟩
        obtain ⟨hinv2, hids2⟩ := StoreInv_rebuild _ _ h2eq ⟨hdeps, hcons1, hacyc1⟩
        refine ⟨st2, personIds.length - (personIds.filter (fun personId =>
          jsTruthy (some midv) && wouldCreateCircular personId (some midv) st.personNodes)).length,
          ?_, hinv2, ?_⟩
        · rw [heq, h2eq]
          rfl
        · rw [hids2]
          exact hidsmap (some midv)

theorem applyOp_inv (st : OrgState) (op : MgrOp) (hinv : StoreInv st)
    (hop : ∀ p ∈ opTargets op, p ∈ idsOf st.personNodes) :
    ∃ st', applyOp st op = some st' ∧ StoreInv st'
      ∧ idsOf st'.personNodes = idsOf st.personNodes := by
  cases op with
  | single personId mid =>
    have hp : personId ∈ idsOf st.personNodes := hop personId (by simp [opTargets])
    obtain ⟨st', b, heq, hinv', hids⟩ := setManager_inv st personId mid hinv hp
    exact ⟨st', by simp [applyOp, heq], hinv', hids⟩
  | bulk personIds mid =>
    have hps : ∀ p ∈ personIds, p ∈ idsOf st.personNodes := fun p hp =>
      hop p (by simpa [opTargets] using hp)
    obtain ⟨st', n, heq, hinv', hids⟩ := bulkSetManager_inv st personIds mid hinv hps
    exact ⟨st', by simp [applyOp, heq], hinv', hids⟩

theorem applyOps_inv (ops : List MgrOp) (st : OrgState) (hinv : StoreInv st)
    (hops : ∀ op ∈ ops, ∀ p ∈ opTargets op, p ∈ idsOf st.personNodes) :
    ∃ st', applyOps st ops = some st' ∧ StoreInv st'
      ∧ idsOf st'.personNodes = idsOf st.personNodes := by
  induction ops generalizing st with
  | nil => exact ⟨st, rfl, hinv, rfl⟩
  | cons op ops ih =>
    obtain ⟨st1, h1, hinv1, hids1⟩ := applyOp_inv st op hinv (hops op (by simp))
    obtain ⟨st2, h2, hinv2, hids2⟩ := ih st1 hinv1 (fun o ho p hp => by
      rw [hids1]
      exact hops o (List.mem_cons_of_mem _ ho) p hp)
    refine ⟨st2, ?_, hinv2, hids2.trans hids1⟩
    simp [applyOps, h1, h2]

/-- Claim C1 (counterexample): the canonical map of the empty store is
acyclic and self-loop free, yet the two-call sequence
`setManager("x","y"); setManager("y","x")` — both calls succeeding, because
`wouldCreateCircular` validates against the (empty) person-node list rather
than the canonical map — leaves the canonical map with the two-cycle
`x ↦ y ↦ x`: two steps of the map graph lead from `"x"` back to `"x"`. -/
theorem c1_counterexample :
    Acyclic (assignGraph exEmptyState.managerAssignments)
    ∧ (applyOps exEmptyState exCycleOps).map
        (fun st => stepIter (assignGraph st.managerAssignments) 2 "x")
        = some (some "x") := by
  constructor
  · intro x n hn h
    cases n with
    | zero => omega
    | succ k =>
      rw [stepIter] at h
      have hg : assignGraph exEmptyState.managerAssignments x = none := rfl
      rw [hg] at h
      simp at h
  · rfl

/-- Claim C1 (amended): acyclicity is preserved for the canonical map
provided the map agrees pointwise with the person nodes' manager graph and
every reassigned person id denotes an existing person node (the
counterexample shows the claim fails without these side conditions, because
validation consults the node list, not the map): for every such state and
every sequence of `setManager`/`bulkSetManager` calls, the calls complete
and the resulting canonical map, read as a directed graph, has no cycle and
no self-loop. -/
theorem c1_theorem (st : OrgState) (ops : List MgrOp) (deps : List Department)
    (hdeps : st.departments = some deps)
    (hcons : ∀ x, assocLookup st.managerAssignments x = mgrOf st.personNodes x)
    (hacyc : Acyclic (mgrOf st.personNodes))
    (hops : ∀ op ∈ ops, ∀ p ∈ opTargets op, p ∈ idsOf st.personNodes) :
    ∃ st', applyOps st ops = some st'
      ∧ Acyclic (assignGraph st'.managerAssignments) := by
  obtain ⟨st', h1, ⟨_, hcons', hacyc'⟩, _⟩ :=
    applyOps_inv ops st ⟨by simp [hdeps], hcons, hacyc⟩ hops
  refine ⟨st', h1, ?_⟩
  exact acyclic_congr (fun x => (hcons' x).symm) hacyc'

/-- Claim C1 (witness): the amended theorem applied to the concrete
two-person state `exPairState` and the single call
`setManager("a", "b")`. -/
theorem c1_witness :
    ∃ st', applyOps exPairState [.single "a" (some "b")] = some st'
      ∧ Acyclic (assignGraph st'.managerAssignments) := by
  have hnone : ∀ x, mgrOf exPairState.personNodes x = none := by
    intro x
    by_cases ha : x = "a"
    · subst ha; rfl
    · by_cases hb : x = "b"
      · subst hb; rfl
      · have ha' : ¬("a" = x) := fun h => ha h.symm
        have hb' : ¬("b" = x) := fun h => hb h.symm
        simp [mgrOf, exPairState, mkState, exPersonA, exPersonB, mkPerson,
          List.find?, ha', hb', truthyOpt]
  apply c1_theorem exPairState [.single "a" (some "b")] [exDept] rfl
  · intro x
    rw [hnone x]
    rfl
  · intro x n hn h
    cases n with
    | zero => omega
    | succ k =>
      rw [stepIter, hnone x] at h
      simp at h
  · intro op hop p hp
    have hops : op = MgrOp.single "a" (some "b") := by simpa using hop
    subst hops
    have hp' : p = "a" := by simpa [opTargets] using hp
    subst hp'
    simp [idsOf, exPairState, mkState, exPersonA, mkPerson]

/-- Claim C2 (counterexample): the cycle predicate does not return `false`
for a null candidate manager — `wouldCreateCircular("a", null, [])` is
`true`. -/
theorem c2_counterexample :
    ¬(wouldCreateCircular "a" none [] = false) := by decide

/-- Claim C2 (amended): for every person id and person set the cycle
predicate returns `true` — not `false` — when the candidate manager id is
null or empty; callers guard every use with a truthiness test, so a
null-manager `setManager` is never rejected by the predicate (it always
succeeds). -/
theorem c2_theorem :
    (∀ (personId : String) (allPersonNodes : List PersonNode),
      wouldCreateCircular personId none allPersonNodes = true
      ∧ wouldCreateCircular personId (some "") allPersonNodes = true)
    ∧ (∀ (st : OrgState) (personId : String),
        ∃ st', setManager st personId none true = some (st', true)) := by
  constructor
  · intro personId allPersonNodes
    exact ⟨rfl, rfl⟩
  · intro st personId
    exact ⟨_, rfl⟩

/-- Claim C9: expanding the template `role-5` with quarters
{Q1:0, Q2:2, Q3:2, Q4:2} for Q1 with `referencedManagerIds =
["role-5-person-0"]` yields exactly one node, `role-5-person-0`, with
`isFutureRole = true` and `startQuarter = "Q2"`; expanding the same
template for Q3 yields exactly two nodes, both with
`isFutureRole = false`. -/
theorem c9_theorem :
    (expandRoleTemplates [exTemplate5] "Q1" ["role-5-person-0"]).map
        (fun n => (n.id, n.isFutureRole, n.startQuarter))
      = [("role-5-person-0", true, some "Q2")]
    ∧ (expandRoleTemplates [exTemplate5] "Q3" []).map
        (fun n => (n.id, n.isFutureRole))
      = [("role-5-person-0", false), ("role-5-person-1", false)] := by
  constructor
  · decide
  · decide

/-! ## Claims C3, C4: the mutation API -/

theorem pairs_map_position (nodes : List PersonNode)
    (posOf : PersonNode → Pos) :
    (nodes.map (fun p => { p with position := posOf p })).map
        (fun n => (n.id, n.managerId))
      = nodes.map (fun n => (n.id, n.managerId)) := by
  rw [List.map_map]
  exact List.map_congr_left (fun a _ => rfl)

theorem rebuildChart_components (st1 : OrgState) (deps : List Department)
    (h : st1.departments = some deps) :
    ∃ st2, rebuildChart st1 = some st2
      ∧ st2.managerAssignments = st1.managerAssignments
      ∧ st2.error = st1.error
      ∧ st2.personNodes.map (fun n => (n.id, n.managerId))
          = st1.personNodes.map (fun n => (n.id, n.managerId)) :=
  ⟨_, rebuildChart_eq_some st1 deps h, rfl, rfl, pairs_map_position _ _⟩

theorem pairs_map_single (nodes : List PersonNode) (personId : String)
    (mid : Option String) :
    (nodes.map (fun node =>
        if node.id = personId then { node with managerId := mid } else node)).map
        (fun n => (n.id, n.managerId))
      = nodes.map (fun n =>
          (n.id, if n.id = personId then mid else n.managerId)) := by
  rw [List.map_map]
  apply List.map_congr_left
  intro a _
  by_cases h : a.id = personId <;> simp [h]

theorem pairs_map_bulk (nodes guardNodes : List PersonNode)
    (personIds : List String) (mid : Option String) :
    (nodes.map (fun node =>
        if personIds.contains node.id then
          if jsTruthy mid && wouldCreateCircular node.id mid guardNodes then node
          else { node with managerId := mid }
        else node)).map (fun n => (n.id, n.managerId))
      = nodes.map (fun n =>
          (n.id,
           if (personIds.contains n.id
               && !(jsTruthy mid && wouldCreateCircular n.id mid guardNodes)) = true
           then mid else n.managerId)) := by
  rw [List.map_map]
  apply List.map_congr_left
  intro a _
  by_cases h1 : personIds.contains a.id = true
  · have hm1 : a.id ∈ personIds := by simpa using h1
    by_cases h2 : (jsTruthy mid && wouldCreateCircular a.id mid guardNodes) = true
    · have h2' : jsTruthy mid = true ∧ wouldCreateCircular a.id mid guardNodes = true :=
        Bool.and_eq_true_iff.mp h2
      simp [hm1, h1, h2, h2']
    · have h2' : ¬(jsTruthy mid = true ∧ wouldCreateCircular a.id mid guardNodes = true) := by
        intro hc
        exact h2 (Bool.and_eq_true_iff.mpr hc)
      simp [hm1, h1, h2, h2']
  · have hm1 : a.id ∉ personIds := by simpa using h1
    simp [hm1, h1]

theorem length_filter_not (l : List String) (p : String → Bool) :
    (l.filter (fun a => !(p a))).length = l.length - (l.filter p).length := by
  induction l with
  | nil => rfl
  | cons a l ih =>
    have hle := List.length_filter_le p l
    by_cases h : p a = true
    · simp [List.filter_cons, h, ih]
      try omega
    · have h' : p a = false := Bool.eq_false_iff.mpr h
      simp [List.filter_cons, h', ih]
      try omega

/-- Claim C3: with a truthy manager id, `setManager` returns `false` and
leaves the canonical map and every node's `managerId` unchanged (setting
only the error message) exactly when `wouldCreateCircular` holds; otherwise
it returns `true`, writes the map entry and the node's `managerId`.  With a
null manager id it always succeeds and deletes the map entry.  ("Non-null"
is read as truthy — the spec groups the empty string with null.) -/
theorem c3_theorem (st : OrgState) (deps : List Department)
    (hdeps : st.departments = some deps) (personId m : String) (hm : m ≠ "") :
    (wouldCreateCircular personId (some m) st.personNodes = true →
      setManager st personId (some m) false
        = some ({ st with
            error := some "Cannot assign manager: would create circular reference" },
          false))
    ∧ (wouldCreateCircular personId (some m) st.personNodes = false →
      ∃ st', setManager st personId (some m) false = some (st', true)
        ∧ st'.managerAssignments = assocSet st.managerAssignments personId m
        ∧ st'.personNodes.map (fun n => (n.id, n.managerId))
            = st.personNodes.map (fun n =>
                (n.id, if n.id = personId then some m else n.managerId)))
    ∧ (∃ st', setManager st personId none false = some (st', true)
        ∧ st'.managerAssignments = assocDelete st.managerAssignments personId
        ∧ st'.personNodes.map (fun n => (n.id, n.managerId))
            = st.personNodes.map (fun n =>
                (n.id, if n.id = personId then none else n.managerId))) := by
  refine ⟨?_, ?_, ?_⟩
  · intro hwcc
    unfold setManager
    rw [if_pos (by simp [jsTruthy, hm, hwcc])]
  · intro hwcc
    have heq : setManager st personId (some m) false
        = (rebuildChart { st with
            personNodes := st.personNodes.map (fun node =>
              if node.id = personId then { node with managerId := some m } else node),
            managerAssignments := assocSet st.managerAssignments personId m,
            error := none }).map (fun st2 => (st2, true)) := by
      unfold setManager
      rw [if_neg (by simp [hwcc])]
      show (let newAssignments := if m = "" then assocDelete st.managerAssignments personId
              else assocSet st.managerAssignments personId m
            let st1 : OrgState := { st with
              personNodes := st.personNodes.map (fun node =>
                if node.id = personId then { node with managerId := some m } else node),
              managerAssignments := newAssignments,
              error := none }
            if false = true then some (st1, true)
            else (rebuildChart st1).map (fun st2 => (st2, true))) = _
      simp only [if_neg hm]
      rfl
    rw [heq]
    obtain ⟨st2, h2, hma, herr, hpairs⟩ := rebuildChart_components { st with
        personNodes := st.personNodes.map (fun node =>
          if node.id = personId then { node with managerId := some m } else node),
        managerAssignments := assocSet st.managerAssignments personId m,
        error := none } deps hdeps
    rw [h2]
    refine ⟨st2, rfl, hma, ?_⟩
    rw [hpairs]
    exact pairs_map_single _ _ _
  · have heq : setManager st personId none false
        = (rebuildChart { st with
            personNodes := st.personNodes.map (fun node =>
              if node.id = personId then { node with managerId := none } else node),
            managerAssignments := assocDelete st.managerAssignments personId,
            error := none }).map (fun st2 => (st2, true)) := by
      unfold setManager
      rw [if_neg (by simp [jsTruthy])]
      rfl
    rw [heq]
    obtain ⟨st2, h2, hma, herr, hpairs⟩ := rebuildChart_components { st with
        personNodes := st.personNodes.map (fun node =>
          if node.id = personId then { node with managerId := none } else node),
        managerAssignments := assocDelete st.managerAssignments personId,
        error := none } deps hdeps
    rw [h2]
    refine ⟨st2, rfl, hma, ?_⟩
    rw [hpairs]
    exact pairs_map_single _ _ _

/-- Claim C3 (witness): the theorem applied to the two-person state with
`setManager("a", "b")`, whose validation succeeds. -/
theorem c3_witness :
    ∃ st', setManager exPairState "a" (some "b") false = some (st', true)
      ∧ st'.managerAssignments = assocSet exPairState.managerAssignments "a" "b"
      ∧ st'.personNodes.map (fun n => (n.id, n.managerId))
          = exPairState.personNodes.map (fun n =>
              (n.id, if n.id = "a" then some "b" else n.managerId)) :=
  (c3_theorem exPairState [exDept] rfl "a" "b" (by decide)).2.1 (by decide)

/-- Claim C4: `bulkSetManager` with a truthy manager id validates every
person id against the pre-call person nodes, mutates (in the canonical map
and the node list) exactly the ids whose assignment passes validation, and
returns the number of list entries that passed; on the concrete scenario
state — X, Y valid, Z's assignment to M circular — `bulkSetManager(["X",
"Y", "Z"], "M")` returns 2, makes X and Y report to M, leaves Z unchanged,
and surfaces the aggregate warning naming 1 skipped assignment. -/
theorem c4_theorem (st : OrgState) (deps : List Department)
    (hdeps : st.departments = some deps)
    (personIds : List String) (m : String) (hm : m ≠ "") :
    (∃ st', bulkSetManager st personIds (some m)
        = some (st', (personIds.filter (fun p =>
            !wouldCreateCircular p (some m) st.personNodes)).length)
      ∧ st'.personNodes.map (fun n => (n.id, n.managerId))
          = st.personNodes.map (fun n =>
              (n.id,
               if (personIds.contains n.id
                   && !wouldCreateCircular n.id (some m) st.personNodes) = true
               then some m else n.managerId))
      ∧ (∀ x, assocLookup st'.managerAssignments x
          = if (personIds.contains x
                && !wouldCreateCircular x (some m) st.personNodes) = true
            then some m else assocLookup st.managerAssignments x))
    ∧ (bulkSetManager exBulkState ["X", "Y", "Z"] (some "M")).map (fun r =>
        (r.2, r.1.error, r.1.managerAssignments,
         r.1.personNodes.map (fun n => (n.id, n.managerId))))
      = some (2, some "1 assignment(s) skipped due to circular reference",
          [("M", "Z"), ("X", "M"), ("Y", "M")],
          [("X", some "M"), ("Y", some "M"), ("Z", none), ("M", some "Z")]) := by
  constructor
  · have hjt : jsTruthy (some m) = true := by simp [jsTruthy, hm]
    have heq : bulkSetManager st personIds (some m)
        = (rebuildChart { st with
            personNodes := st.personNodes.map (fun node =>
              if personIds.contains node.id then
                if jsTruthy (some m) && wouldCreateCircular node.id (some m) st.personNodes then node
                else { node with managerId := some m }
              else node),
            managerAssignments := personIds.foldl (fun mp personId =>
              if m = "" then assocDelete mp personId
              else if wouldCreateCircular personId (some m) st.personNodes then mp
              else assocSet mp personId m) st.managerAssignments,
            error := if (personIds.filter (fun personId =>
                jsTruthy (some m) && wouldCreateCircular personId (some m) st.personNodes)).length > 0
              then some (toString (personIds.filter (fun personId =>
                jsTruthy (some m) && wouldCreateCircular personId (some m) st.personNodes)).length
                ++ " assignment(s) skipped due to circular reference")
              else none }).map (fun st2 => (st2,
            personIds.length - (personIds.filter (fun personId =>
              jsTruthy (some m) && wouldCreateCircular personId (some m) st.personNodes)).length)) := by
      unfold bulkSetManager
      rfl
    have hfold : (fun (mp : List (String × String)) (personId : String) =>
        if m = "" then assocDelete mp personId
        else if wouldCreateCircular personId (some m) st.personNodes then mp
        else assocSet mp personId m)
        = fun mp personId =>
          if wouldCreateCircular personId (some m) st.personNodes then mp
          else assocSet mp personId m := by
      funext mp p
      rw [if_neg hm]
    have hguardfun : (fun personId =>
        jsTruthy (some m) && wouldCreateCircular personId (some m) st.personNodes)
        = fun personId => wouldCreateCircular personId (some m) st.personNodes := by
      funext p
      rw [hjt, Bool.true_and]
    have hcount : personIds.length - (personIds.filter (fun personId =>
        jsTruthy (some m) && wouldCreateCircular personId (some m) st.personNodes)).length
        = (personIds.filter (fun p =>
            !wouldCreateCircular p (some m) st.personNodes)).length := by
      rw [hguardfun, length_filter_not]
    rw [hfold] at heq
    rw [heq]
    obtain ⟨st2, h2, hma, herr, hpairs⟩ := rebuildChart_components { st with
        personNodes := st.personNodes.map (fun node =>
          if personIds.contains node.id then
            if jsTruthy (some m) && wouldCreateCircular node.id (some m) st.personNodes then node
            else { node with managerId := some m }
          else node),
        managerAssignments := personIds.foldl (fun mp personId =>
          if wouldCreateCircular personId (some m) st.personNodes then mp
          else assocSet mp personId m) st.managerAssignments,
        error := if (personIds.filter (fun personId =>
            jsTruthy (some m) && wouldCreateCircular personId (some m) st.personNodes)).length > 0
          then some (toString (personIds.filter (fun personId =>
            jsTruthy (some m) && wouldCreateCircular personId (some m) st.personNodes)).length
            ++ " assignment(s) skipped due to circular reference")
          else none } deps hdeps
    rw [h2, hcount]
    refine ⟨st2, rfl, ?_, ?_⟩
    · rw [hpairs, pairs_map_bulk]
      apply List.map_congr_left
      intro a _
      rw [hjt, Bool.true_and]
    · intro x
      rw [hma]
      show assocLookup (personIds.foldl (fun mp personId =>
          if wouldCreateCircular personId (some m) st.personNodes then mp
          else assocSet mp personId m) st.managerAssignments) x = _
      rw [foldl_assocSetGuard_lookup]
  · rfl

/-- Claim C4 (witness): the theorem applied to the scenario state and the
batch `["X", "Y", "Z"] → "M"`. -/
theorem c4_witness :
    ∃ st', bulkSetManager exBulkState ["X", "Y", "Z"] (some "M")
        = some (st', ((["X", "Y", "Z"] : List String).filter (fun p =>
            !wouldCreateCircular p (some "M") exBulkState.personNodes)).length)
      ∧ st'.personNodes.map (fun n => (n.id, n.managerId))
          = exBulkState.personNodes.map (fun n =>
              (n.id,
               if ((["X", "Y", "Z"] : List String).contains n.id
                   && !wouldCreateCircular n.id (some "M") exBulkState.personNodes) = true
               then some "M" else n.managerId))
      ∧ (∀ x, assocLookup st'.managerAssignments x
          = if ((["X", "Y", "Z"] : List String).contains x
                && !wouldCreateCircular x (some "M") exBulkState.personNodes) = true
            then some "M" else assocLookup exBulkState.managerAssignments x) :=
  (c4_theorem exBulkState [exDept] rfl ["X", "Y", "Z"] "M" (by decide)).1

/-! ## Claim C5: layout mode selection -/

/-- Claim C5 (counterexample): in `exCollapsedState` the full working
person set contains A with a non-null `managerId`, yet the rebuild lays
out the visible persons (only M — A is hidden under the collapsed M) with
the department-grid algorithm, and the two layout algorithms observably
disagree on that input — the mode switch reads the visible subset handed
to `calculateLayout`, not the full set. -/
theorem c5_counterexample :
    exCollapsedState.personNodes.any (fun p => p.managerId.isSome) = true
    ∧ rebuildPositions exCollapsedState [exDept]
        = calculateGridLayout (visibleOf exCollapsedState) [exDept]
    ∧ rebuildPositions exCollapsedState [exDept]
        ≠ calculateHierarchicalLayout (visibleOf exCollapsedState) [exDept] := by
  refine ⟨rfl, rfl, ?_⟩
  intro h
  have : (assocLookup (rebuildPositions exCollapsedState [exDept]) "M")
      = assocLookup (calculateHierarchicalLayout (visibleOf exCollapsedState) [exDept]) "M" := by
    rw [h]
  exact absurd this (by decide)

/-- Claim C5 (amended): the layout mode is a global switch over the person
list handed to the layout engine — for `rebuildChart` that is the visible
subset, not the full working set: the rebuild's positions come from the
hierarchical algorithm iff some *visible* person has a non-null
`managerId`, and from the department grid otherwise. -/
theorem c5_theorem (st : OrgState) (departments : List Department) :
    rebuildPositions st departments
      = if (visibleOf st).any (fun p => p.managerId.isSome) then
          calculateHierarchicalLayout (visibleOf st) departments
        else calculateGridLayout (visibleOf st) departments := rfl

/-! ## Claim C7: import -/

theorem rebuildChart_none (st1 : OrgState) (h : st1.departments = none) :
    rebuildChart st1 = none := by
  unfold rebuildChart
  rw [h]

theorem importFromJSON_some (st : OrgState) (jsonData : ImportData)
    (importedNodes : List PersonNode)
    (hpn : jsonData.personNodes = some importedNodes) :
    importFromJSON st jsonData
      = match rebuildChart { st with
            departments := jsonData.departments,
            roleTemplates := jsonData.roleTemplates,
            personNodes := importedNodes,
            managerAssignments := buildAssignmentsFromNodes importedNodes,
            selectedQuarter := jsonData.selectedQuarter,
            csvFileName := jsonData.csvFileName,
            collapsedNodes := jsonData.collapsedNodes.getD [],
            error := none } with
        | none => ({ st with
            departments := jsonData.departments,
            roleTemplates := jsonData.roleTemplates,
            personNodes := importedNodes,
            managerAssignments := buildAssignmentsFromNodes importedNodes,
            selectedQuarter := jsonData.selectedQuarter,
            csvFileName := jsonData.csvFileName,
            collapsedNodes := jsonData.collapsedNodes.getD [],
            error := some "Failed to import data: invalid format" }, false)
        | some st2 => (st2, true) := by
  unfold importFromJSON
  rw [hpn]

theorem buildAssignments_fold (nodes : List PersonNode) :
    ∀ (acc : List (String × String)) (x : String),
      (idsOf nodes).Nodup →
      (∀ n ∈ nodes, assocLookup acc n.id = none) →
      assocLookup (nodes.foldl (fun mAcc node =>
          match node.managerId with
          | some mid => if mid = "" then mAcc else assocSet mAcc node.id mid
          | none => mAcc) acc) x
        = match nodes.find? (fun p => p.id = x) with
          | some q => truthyOpt q.managerId
          | none => assocLookup acc x := by
  induction nodes with
  | nil =>
    intro acc x _ _
    rfl
  | cons n0 rest ih =>
    intro acc x hnd hacc
    have hnd1 : (∀ p ∈ rest, ¬p.id = n0.id) ∧ (rest.map (·.id)).Nodup := by
      simpa [idsOf] using hnd
    have hnd' : (idsOf rest).Nodup := hnd1.2
    have hn0 : n0.id ∉ idsOf rest := by
      simp only [idsOf, List.mem_map]
      rintro ⟨p, hp, hpe⟩
      exact hnd1.1 p hp hpe
    simp only [List.foldl_cons]
    have hstep : ∀ (acc' : List (String × String)),
        (∀ y, assocLookup acc' y
          = if y = n0.id then truthyOpt n0.managerId else assocLookup acc y) →
        assocLookup (rest.foldl (fun mAcc node =>
            match node.managerId with
            | some mid => if mid = "" then mAcc else assocSet mAcc node.id mid
            | none => mAcc) acc') x
          = match (n0 :: rest).find? (fun p => p.id = x) with
            | some q => truthyOpt q.managerId
            | none => assocLookup acc x := by
      intro acc' hacc'
      have hacc'' : ∀ n ∈ rest, assocLookup acc' n.id = none := by
        intro n hn
        rw [hacc' n.id]
        have hne : n.id ≠ n0.id := by
          intro h
          apply hn0
          rw [← h]
          simp [idsOf]
          exact ⟨n, hn, rfl⟩
        rw [if_neg hne]
        exact hacc n (List.mem_cons_of_mem _ hn)
      rw [ih acc' x hnd' hacc'']
      by_cases hx : n0.id = x
      · rw [List.find?_cons_of_pos _ (by simpa using hx)]
        cases hfind : rest.find? (fun p => p.id = x) with
        | none =>
          rw [hacc' x, if_pos hx.symm]
        | some q =>
          exfalso
          apply hn0
          have hq := List.mem_of_find?_eq_some hfind
          have hqid : q.id = x := by simpa using List.find?_some hfind
          rw [hx]
          simp only [idsOf, List.mem_map]
          exact ⟨q, hq, hqid⟩
      · rw [List.find?_cons_of_neg _ (by simpa using hx)]
        cases hfind : rest.find? (fun p => p.id = x) with
        | none =>
          rw [hacc' x, if_neg (fun h => hx h.symm)]
        | some q => rfl
    cases hm0 : n0.managerId with
    | none =>
      apply hstep
      intro y
      show assocLookup acc y = _
      by_cases hy : y = n0.id
      · rw [if_pos hy, hy]
        simp only [truthyOpt, hm0]
        exact hacc n0 (by simp)
      · rw [if_neg hy]
    | some mid =>
      apply hstep
      intro y
      show assocLookup (if mid = "" then acc else assocSet acc n0.id mid) y = _
      by_cases hmid : mid = ""
      · subst hmid
        rw [if_pos rfl]
        by_cases hy : y = n0.id
        · rw [if_pos hy, hy]
          simp only [truthyOpt, hm0, if_pos rfl]
          exact hacc n0 (by simp)
        · rw [if_neg hy]
      · rw [if_neg hmid, assocLookup_assocSet]
        by_cases hy : y = n0.id
        · rw [if_pos hy, if_pos hy]
          simp [truthyOpt, hm0, hmid]
        · rw [if_neg hy, if_neg hy]

theorem buildAssignments_lookup (importedNodes : List PersonNode)
    (hnodup : (importedNodes.map (·.id)).Nodup) (x : String) :
    assocLookup (buildAssignmentsFromNodes importedNodes) x
      = mgrOf importedNodes x := by
  unfold buildAssignmentsFromNodes
  rw [buildAssignments_fold importedNodes [] x (by simpa [idsOf] using hnodup)
    (fun n _ => rfl)]
  unfold mgrOf
  cases hfind : importedNodes.find? (fun p => p.id = x) with
  | none => rfl
  | some q => rfl

/-- Counterexample to claim C7.  Import is not all-or-nothing over the four
keys the claim lists: a payload whose `roleTemplates` key is absent imports
"successfully" (returns true), and a payload whose `departments` key is
absent does return false — but only after the prior `personNodes` have
already been overwritten, so the failure is not mutation-free. -/
theorem c7_counterexample :
    exImportMissingTemplates.roleTemplates = none
    ∧ (importFromJSON exEmptyState exImportMissingTemplates).2 = true
    ∧ exImportMissingDepts.departments = none
    ∧ (importFromJSON exEmptyState exImportMissingDepts).2 = false
    ∧ (importFromJSON exEmptyState exImportMissingDepts).1.personNodes
        ≠ exEmptyState.personNodes := by
  refine ⟨rfl, rfl, rfl, rfl, ?_⟩
  decide

/-- Claim C7 (amended): only an absent `personNodes` key makes
`importFromJSON` reject without touching anything but the error message;
an absent `departments` key (with `personNodes` present) also returns false,
but only after `personNodes` and the canonical map have been overwritten;
any payload with both `personNodes` and `departments` present imports
successfully, and the canonical manager map is rebuilt exactly from the
truthy `managerId` fields of the imported nodes (pointwise equal to their
manager graph when the imported ids are distinct). -/
theorem c7_theorem (st : OrgState) (jsonData : ImportData) :
    (jsonData.personNodes = none →
      importFromJSON st jsonData
        = ({ st with error := some "Failed to import data: invalid format" },
            false))
    ∧ (∀ importedNodes, jsonData.personNodes = some importedNodes →
        jsonData.departments = none →
        (importFromJSON st jsonData).2 = false
        ∧ (importFromJSON st jsonData).1.personNodes = importedNodes
        ∧ (importFromJSON st jsonData).1.managerAssignments
            = buildAssignmentsFromNodes importedNodes)
    ∧ (∀ importedNodes deps, jsonData.personNodes = some importedNodes →
        jsonData.departments = some deps →
        (importFromJSON st jsonData).2 = true
        ∧ (importFromJSON st jsonData).1.managerAssignments
            = buildAssignmentsFromNodes importedNodes
        ∧ ((importedNodes.map (fun n => n.id)).Nodup →
            ∀ x, assocLookup
                (importFromJSON st jsonData).1.managerAssignments x
              = mgrOf importedNodes x)) := by
  refine ⟨?_, ?_, ?_⟩
  · intro hpn
    unfold importFromJSON
    rw [hpn]
  · intro importedNodes hpn hdeps
    rw [importFromJSON_some st jsonData importedNodes hpn]
    have hnone : rebuildChart { st with
        departments := jsonData.departments,
        roleTemplates := jsonData.roleTemplates,
        personNodes := importedNodes,
        managerAssignments := buildAssignmentsFromNodes importedNodes,
        selectedQuarter := jsonData.selectedQuarter,
        csvFileName := jsonData.csvFileName,
        collapsedNodes := jsonData.collapsedNodes.getD [],
        error := none } = none := by
      apply rebuildChart_none
      exact hdeps
    rw [hnone]
    exact ⟨rfl, rfl, rfl⟩
  · intro importedNodes deps hpn hdeps
    rw [importFromJSON_some st jsonData importedNodes hpn]
    obtain ⟨st2, hrb, hma, -, -⟩ :=
      rebuildChart_components { st with
        departments := jsonData.departments,
        roleTemplates := jsonData.roleTemplates,
        personNodes := importedNodes,
        managerAssignments := buildAssignmentsFromNodes importedNodes,
        selectedQuarter := jsonData.selectedQuarter,
        csvFileName := jsonData.csvFileName,
        collapsedNodes := jsonData.collapsedNodes.getD [],
        error := none } deps hdeps
    rw [hrb]
    refine ⟨rfl, hma, ?_⟩
    intro hnd x
    rw [show st2.managerAssignments = buildAssignmentsFromNodes importedNodes
      from hma]
    exact buildAssignments_lookup importedNodes hnd x

/-- Witness for C7: the fully-formed payload `exImportGood` imports
successfully, and the reconstructed map agrees with the imported nodes'
manager graph at `"a"`. -/
theorem c7_witness :
    (importFromJSON exEmptyState exImportGood).2 = true
    ∧ assocLookup
        (importFromJSON exEmptyState exImportGood).1.managerAssignments "a"
      = mgrOf [mkPerson "a" (some "b") "d", mkPerson "b" none "d"] "a" := by
  obtain ⟨-, -, h3⟩ := c7_theorem exEmptyState exImportGood
  obtain ⟨ht, -, hl⟩ :=
    h3 [mkPerson "a" (some "b") "d", mkPerson "b" none "d"] [exDept] rfl rfl
  exact ⟨ht, hl (by decide) "a"⟩

/-! ## Claim C8: visibility monotonicity -/

theorem visLoop_anti (persons : List PersonNode) (C C2 : List String)
    (hsub : ∀ c, C.contains c = true → C2.contains c = true) :
    ∀ fuel cur, visLoop persons C2 fuel cur = true →
      visLoop persons C fuel cur = true := by
  intro fuel
  induction fuel with
  | zero =>
    intro cur h
    cases cur with
    | none => rfl
    | some c => exact absurd h (by simp [visLoop])
  | succ f ih =>
    intro cur h
    cases cur with
    | none => rfl
    | some c =>
      rw [visLoop] at h ⊢
      by_cases hc : c = ""
      · rw [if_pos hc]
      · rw [if_neg hc] at h ⊢
        by_cases hC2 : C2.contains c = true
        · rw [if_pos hC2] at h
          exact absurd h (by simp)
        · have hC : ¬(C.contains c = true) := fun hh => hC2 (hsub c hh)
          rw [if_neg hC]
          rw [if_neg hC2] at h
          exact ih _ h

/-- Claim C8: visibility is antitone in the collapse set — over a person
set with an acyclic manager graph, enlarging the collapse set from `C` to
`C2` never makes a hidden person visible: every person visible under the
larger set `C2` is visible under `C`. -/
theorem c8_theorem (persons : List PersonNode) (C C2 : List String)
    (hacyc : Acyclic (mgrOf persons))
    (hsub : ∀ c, c ∈ C → c ∈ C2) (p : PersonNode)
    (hvis : isPersonVisible persons C2 p = true) :
    isPersonVisible persons C p = true := by
  have hsub' : ∀ c, C.contains c = true → C2.contains c = true := by
    intro c hc
    simpa using hsub c (by simpa using hc)
  exact visLoop_anti persons C C2 hsub' _ _ hvis

/-- The manager graph of `exVisPersons` (the pair `a → b`) is acyclic:
every edge strictly decreases an explicit rank. -/
theorem exVisPersons_acyclic : Acyclic (mgrOf exVisPersons) := by
  apply acyclic_of_rank _ (fun x => if x = "a" then 1 else 0)
  intro x y h
  by_cases hx : x = "a"
  · subst hx
    have hma : mgrOf exVisPersons "a" = some "b" := by rfl
    rw [hma] at h
    injection h with h
    subst h
    decide
  · exfalso
    by_cases hxb : x = "b"
    · subst hxb
      have hmb : mgrOf exVisPersons "b" = none := by rfl
      rw [hmb] at h
      exact Option.noConfusion h
    · have ha' : ¬("a" = x) := fun hh => hx hh.symm
      have hb' : ¬("b" = x) := fun hh => hxb hh.symm
      have hmn : mgrOf exVisPersons x = none := by
        simp [mgrOf, exVisPersons, mkPerson, List.find?, ha', hb', truthyOpt]
      rw [hmn] at h
      exact Option.noConfusion h

/-- Witness for C8: over the acyclic pair `a → b`, the person `a` is
visible with `"z"` collapsed, hence also visible with nothing collapsed. -/
theorem c8_witness :
    Acyclic (mgrOf exVisPersons)
    ∧ isPersonVisible exVisPersons ["z"] (mkPerson "a" (some "b") "d") = true
    ∧ isPersonVisible exVisPersons [] (mkPerson "a" (some "b") "d") = true := by
  have hacyc : Acyclic (mgrOf exVisPersons) := exVisPersons_acyclic
  refine ⟨hacyc, by decide, ?_⟩
  exact c8_theorem exVisPersons [] ["z"] hacyc (by simp)
    (mkPerson "a" (some "b") "d") (by decide)

/-! ## Claim C10: the visible set is closed under managers -/

theorem visLoop_mono (persons : List PersonNode) (C : List String) :
    ∀ f f2 cur, f ≤ f2 → visLoop persons C f cur = true →
      visLoop persons C f2 cur = true := by
  intro f
  induction f with
  | zero =>
    intro f2 cur _ h
    cases cur with
    | none => cases f2 <;> rfl
    | some c => exact absurd h (by simp [visLoop])
  | succ f ih =>
    intro f2 cur hle h
    cases cur with
    | none => cases f2 <;> rfl
    | some c =>
      cases f2 with
      | zero => omega
      | succ f3 =>
        rw [visLoop] at h ⊢
        by_cases hc : c = ""
        · rw [if_pos hc]
        · rw [if_neg hc] at h ⊢
          by_cases hC : C.contains c = true
          · rw [if_pos hC] at h
            exact absurd h (by simp)
          · rw [if_neg hC] at h ⊢
            exact ih f3 _ (by omega) h

theorem buildEdgesStep_none (vis persons : List PersonNode)
    (acc : List Edge × List String) (p0 : PersonNode)
    (hm : p0.managerId = none) :
    buildEdgesStep vis persons acc p0 = acc := by
  unfold buildEdgesStep
  rw [hm]

theorem buildEdgesStep_eq (vis persons : List PersonNode)
    (acc : List Edge × List String) (p0 : PersonNode) (m : String)
    (hm : p0.managerId = some m) :
    buildEdgesStep vis persons acc p0
      = if m = "" then acc
        else if vis.any (fun n => n.id = m) then
          if persons.any (fun n => n.managerId = some p0.id)
              || !(acc.2.contains (m ++ "-" ++ roleKey p0)) then
            (acc.1 ++
              [{ id := "edge-" ++ m ++ "-" ++ p0.id, source := m,
                 target := p0.id,
                 crossDepartment := !((persons.find? (fun n => n.id = m)).map
                   (fun n => n.departmentId) == some p0.departmentId) }],
             (m ++ "-" ++ roleKey p0) :: acc.2)
          else acc
        else acc := by
  unfold buildEdgesStep
  rw [hm]

theorem buildEdgesStep_ok (vis persons : List PersonNode)
    (acc : List Edge × List String) (p0 : PersonNode)
    (hp0 : vis.any (fun n => n.id = p0.id) = true)
    (hacc : ∀ e ∈ acc.1, edgeOk vis e = true) :
    ∀ e ∈ (buildEdgesStep vis persons acc p0).1, edgeOk vis e = true := by
  cases hm : p0.managerId with
  | none =>
    rw [buildEdgesStep_none vis persons acc p0 hm]
    exact hacc
  | some m =>
    rw [buildEdgesStep_eq vis persons acc p0 m hm]
    by_cases hme : m = ""
    · rw [if_pos hme]
      exact hacc
    · rw [if_neg hme]
      by_cases hv : vis.any (fun n => n.id = m) = true
      · rw [if_pos hv]
        by_cases hcond : (persons.any (fun n => n.managerId = some p0.id)
            || !(acc.2.contains (m ++ "-" ++ roleKey p0))) = true
        · rw [if_pos hcond]
          intro e he
          rw [List.mem_append] at he
          cases he with
          | inl h => exact hacc e h
          | inr h =>
            have he2 : e =
                { id := "edge-" ++ m ++ "-" ++ p0.id, source := m,
                  target := p0.id,
                  crossDepartment := !((persons.find? (fun n => n.id = m)).map
                    (fun n => n.departmentId) == some p0.departmentId) } := by
              simpa using h
            subst he2
            unfold edgeOk
            rw [Bool.and_eq_true]
            exact ⟨hv, hp0⟩
        · rw [if_neg hcond]
          exact hacc
      · rw [if_neg hv]
        exact hacc

theorem buildEdges_ok (vis persons : List PersonNode) :
    ∀ (l : List PersonNode) (acc : List Edge × List String),
      (∀ p ∈ l, vis.any (fun n => n.id = p.id) = true) →
      (∀ e ∈ acc.1, edgeOk vis e = true) →
      ∀ e ∈ (l.foldl (buildEdgesStep vis persons) acc).1,
        edgeOk vis e = true := by
  intro l
  induction l with
  | nil =>
    intro acc _ hacc
    exact hacc
  | cons p0 rest ih =>
    intro acc hl hacc
    rw [List.foldl_cons]
    apply ih
    · intro p hp
      exact hl p (List.mem_cons_of_mem _ hp)
    · apply buildEdgesStep_ok
      · exact hl p0 (List.mem_cons_self _ _)
      · exact hacc

/-- Claim C10: over an acyclic person set, the visible set is closed under
taking managers — if `p` is visible and its truthy `managerId` resolves
(via the same `find` the walk uses) to a node `q`, then `q` is visible —
and consequently every edge the rebuild emits has both its source and its
target among the visible node ids. -/
theorem c10_theorem (persons : List PersonNode) (C : List String)
    (hacyc : Acyclic (mgrOf persons)) :
    (∀ p mid q, isPersonVisible persons C p = true →
        p.managerId = some mid → mid ≠ "" →
        persons.find? (fun n => n.id = mid) = some q →
        isPersonVisible persons C q = true)
    ∧ (∀ e ∈ buildEdges (persons.filter (isPersonVisible persons C)) persons,
        edgeOk (persons.filter (isPersonVisible persons C)) e = true) := by
  constructor
  · intro p mid q hvis hpm hmid hfind
    unfold isPersonVisible at hvis ⊢
    rw [hpm] at hvis
    rw [visLoop] at hvis
    rw [if_neg hmid] at hvis
    by_cases hC : C.contains mid = true
    · rw [if_pos hC] at hvis
      exact absurd hvis (by simp)
    · rw [if_neg hC] at hvis
      rw [hfind] at hvis
      rw [Option.some_bind] at hvis
      exact visLoop_mono persons C persons.length (persons.length + 1)
        q.managerId (by omega) hvis
  · unfold buildEdges
    apply buildEdges_ok
    · intro p hp
      rw [List.any_eq_true]
      exact ⟨p, hp, by simp⟩
    · intro e he
      exact absurd he (by simp)

/-- Witness for C10: over the acyclic visible pair `a → b` with nothing
collapsed, `a` is visible and its manager resolves to the visible node
`b`; the single emitted edge `b → a` has both endpoints among the visible
nodes. -/
theorem c10_witness :
    Acyclic (mgrOf exVisPersons)
    ∧ isPersonVisible exVisPersons [] (mkPerson "b" none "d") = true
    ∧ edgeOk (exVisPersons.filter (isPersonVisible exVisPersons []))
        { id := "edge-b-a", source := "b", target := "a",
          crossDepartment := false } = true := by
  obtain ⟨hclo, hedge⟩ := c10_theorem exVisPersons [] exVisPersons_acyclic
  refine ⟨exVisPersons_acyclic, ?_, ?_⟩
  · exact hclo (mkPerson "a" (some "b") "d") "b" (mkPerson "b" none "d")
      (by decide) rfl (by decide) (by decide)
  · exact hedge _ (by decide)

/-! ## Claim C6: layout totality -/

theorem hasKey_assocSet_self {β : Type} (pos : List (String × β)) (k : String)
    (v : β) : hasKey (assocSet pos k v) k = true := by
  unfold assocSet hasKey
  by_cases h : pos.any (fun kv => kv.1 = k) = true
  · rw [if_pos h]
    rw [List.any_eq_true] at h ⊢
    obtain ⟨kv, hkv, hk⟩ := h
    refine ⟨(k, v), ?_, by simp⟩
    rw [List.mem_map]
    refine ⟨kv, hkv, ?_⟩
    simp only [decide_eq_true_eq] at hk
    simp [hk]
  · rw [if_neg h]
    rw [List.any_eq_true]
    exact ⟨(k, v), by simp, by simp⟩

theorem hasKey_assocSet_mono {β : Type} (pos : List (String × β))
    (k q : String) (v : β) (h : hasKey pos q = true) :
    hasKey (assocSet pos k v) q = true := by
  unfold assocSet
  unfold hasKey at h ⊢
  rw [List.any_eq_true] at h
  obtain ⟨kv, hkv, hk⟩ := h
  simp only [decide_eq_true_eq] at hk
  by_cases hc : pos.any (fun kv => kv.1 = k) = true
  · rw [if_pos hc]
    rw [List.any_eq_true]
    by_cases hkk : kv.1 = k
    · refine ⟨(k, v), List.mem_map.mpr ⟨kv, hkv, by simp [hkk]⟩, ?_⟩
      simp only [decide_eq_true_eq]
      rw [← hkk]
      exact hk
    · exact ⟨kv, List.mem_map.mpr ⟨kv, hkv, by simp [hkk]⟩, by simp [hk]⟩
  · rw [if_neg hc]
    rw [List.any_eq_true]
    exact ⟨kv, List.mem_append_left _ hkv, by simp [hk]⟩

theorem stackGroup_mono (g : List PersonNode) :
    ∀ (x y : Int) (pos : List (String × Pos)) (k : String),
      hasKey pos k = true → hasKey (stackGroup g x y pos) k = true := by
  induction g with
  | nil => intro x y pos k h; rw [stackGroup]; exact h
  | cons c rest ih =>
    intro x y pos k h
    rw [stackGroup]
    exact ih _ _ _ _ (hasKey_assocSet_mono _ _ _ _ h)

theorem stackGroup_covers (g : List PersonNode) :
    ∀ (c : PersonNode), c ∈ g → ∀ (x y : Int) (pos : List (String × Pos)),
      hasKey (stackGroup g x y pos) c.id = true := by
  induction g with
  | nil => intro c hc; cases hc
  | cons c0 rest ih =>
    intro c hc x y pos
    rw [stackGroup]
    rcases List.mem_cons.mp hc with h | h
    · subst h
      exact stackGroup_mono _ _ _ _ _ (hasKey_assocSet_self _ _ _)
    · exact ih c h _ _ _

theorem stackRoleGroups_mono (gs : List (List PersonNode)) :
    ∀ (x y : Int) (pos : List (String × Pos)) (k : String),
      hasKey pos k = true → hasKey (stackRoleGroups gs x y pos) k = true := by
  induction gs with
  | nil => intro x y pos k h; rw [stackRoleGroups]; exact h
  | cons g rest ih =>
    intro x y pos k h
    rw [stackRoleGroups]
    exact ih _ _ _ _ (stackGroup_mono _ _ _ _ _ h)

theorem stackRoleGroups_covers (gs : List (List PersonNode)) :
    ∀ (g : List PersonNode), g ∈ gs → ∀ (c : PersonNode), c ∈ g →
      ∀ (x y : Int) (pos : List (String × Pos)),
        hasKey (stackRoleGroups gs x y pos) c.id = true := by
  induction gs with
  | nil => intro g hg; cases hg
  | cons g0 rest ih =>
    intro g hg c hc x y pos
    rw [stackRoleGroups]
    rcases List.mem_cons.mp hg with h | h
    · subst h
      exact stackRoleGroups_mono _ _ _ _ _ (stackGroup_covers _ c hc _ _ _)
    · exact ih g h c hc _ _ _

theorem addToGroups_mem_preserved :
    ∀ (gs : List (String × List PersonNode)) (k : String) (c c' : PersonNode),
      (∃ e ∈ gs, c' ∈ e.2) → ∃ e ∈ addToGroups gs k c, c' ∈ e.2 := by
  intro gs
  induction gs with
  | nil =>
    intro k c c' h
    obtain ⟨e, he, _⟩ := h
    cases he
  | cons e0 rest ih =>
    intro k c c' h
    obtain ⟨e, he, hc'⟩ := h
    obtain ⟨k0, g0⟩ := e0
    rw [addToGroups]
    rcases List.mem_cons.mp he with h1 | h1
    · subst h1
      by_cases hk : k0 = k
      · rw [if_pos hk]
        exact ⟨(k0, g0 ++ [c]), List.mem_cons_self _ _,
          List.mem_append_left _ hc'⟩
      · rw [if_neg hk]
        exact ⟨(k0, g0), List.mem_cons_self _ _, hc'⟩
    · by_cases hk : k0 = k
      · rw [if_pos hk]
        exact ⟨e, List.mem_cons_of_mem _ h1, hc'⟩
      · rw [if_neg hk]
        obtain ⟨e2, he2, hc2⟩ := ih k c c' ⟨e, h1, hc'⟩
        exact ⟨e2, List.mem_cons_of_mem _ he2, hc2⟩

theorem addToGroups_mem_new :
    ∀ (gs : List (String × List PersonNode)) (k : String) (c : PersonNode),
      ∃ e ∈ addToGroups gs k c, c ∈ e.2 := by
  intro gs
  induction gs with
  | nil =>
    intro k c
    rw [addToGroups]
    exact ⟨(k, [c]), List.mem_cons_self _ _, List.mem_singleton.mpr rfl⟩
  | cons e0 rest ih =>
    intro k c
    obtain ⟨k0, g0⟩ := e0
    rw [addToGroups]
    by_cases hk : k0 = k
    · rw [if_pos hk]
      exact ⟨(k0, g0 ++ [c]), List.mem_cons_self _ _,
        List.mem_append_right _ (List.mem_singleton.mpr rfl)⟩
    · rw [if_neg hk]
      obtain ⟨e2, he2, hc2⟩ := ih k c
      exact ⟨e2, List.mem_cons_of_mem _ he2, hc2⟩

theorem groupChildren_fold_covers :
    ∀ (children : List PersonNode) (gs : List (String × List PersonNode))
      (c : PersonNode),
      (c ∈ children ∨ ∃ e ∈ gs, c ∈ e.2) →
      ∃ e ∈ children.foldl (fun gs c => addToGroups gs (roleKey c) c) gs,
        c ∈ e.2 := by
  intro children
  induction children with
  | nil =>
    intro gs c h
    rcases h with h | h
    · cases h
    · exact h
  | cons c0 rest ih =>
    intro gs c h
    rw [List.foldl_cons]
    rcases h with h | h
    · rcases List.mem_cons.mp h with h1 | h1
      · subst h1
        exact ih _ c (Or.inr (addToGroups_mem_new gs (roleKey c) c))
      · exact ih _ c (Or.inl h1)
    · exact ih _ c (Or.inr (addToGroups_mem_preserved gs (roleKey c0) c0 c h))

theorem groupChildrenByRole_covers (children : List PersonNode)
    (c : PersonNode) (hc : c ∈ children) :
    ∃ g ∈ groupChildrenByRole children, c ∈ g := by
  unfold groupChildrenByRole
  obtain ⟨e, he, hce⟩ := groupChildren_fold_covers children [] c (Or.inl hc)
  exact ⟨e.2, List.mem_map.mpr ⟨e, he, rfl⟩, hce⟩

theorem placeUnassigned_mono (l : List PersonNode) :
    ∀ (idx : Nat) (pos : List (String × Pos)) (k : String),
      hasKey pos k = true → hasKey (placeUnassigned l idx pos) k = true := by
  induction l with
  | nil => intro idx pos k h; rw [placeUnassigned]; exact h
  | cons p rest ih =>
    intro idx pos k h
    rw [placeUnassigned]
    exact ih _ _ _ (hasKey_assocSet_mono _ _ _ _ h)

theorem placeUnassigned_covers (l : List PersonNode) :
    ∀ (p : PersonNode), p ∈ l → ∀ (idx : Nat) (pos : List (String × Pos)),
      hasKey (placeUnassigned l idx pos) p.id = true := by
  induction l with
  | nil => intro p hp; cases hp
  | cons p0 rest ih =>
    intro p hp idx pos
    rw [placeUnassigned]
    rcases List.mem_cons.mp hp with h | h
    · subst h
      exact placeUnassigned_mono _ _ _ _ (hasKey_assocSet_self _ _ _)
    · exact ih p h _ _

theorem placeGridDept_mono (l : List PersonNode) :
    ∀ (sy : Int) (idx : Nat) (pos : List (String × Pos)) (k : String),
      hasKey pos k = true → hasKey (placeGridDept l sy idx pos) k = true := by
  induction l with
  | nil => intro sy idx pos k h; rw [placeGridDept]; exact h
  | cons p rest ih =>
    intro sy idx pos k h
    rw [placeGridDept]
    exact ih _ _ _ _ (hasKey_assocSet_mono _ _ _ _ h)

theorem placeGridDept_covers (l : List PersonNode) :
    ∀ (p : PersonNode), p ∈ l → ∀ (sy : Int) (idx : Nat)
      (pos : List (String × Pos)),
      hasKey (placeGridDept l sy idx pos) p.id = true := by
  induction l with
  | nil => intro p hp; cases hp
  | cons p0 rest ih =>
    intro p hp sy idx pos
    rw [placeGridDept]
    rcases List.mem_cons.mp hp with h | h
    · subst h
      exact placeGridDept_mono _ _ _ _ _ (hasKey_assocSet_self _ _ _)
    · exact ih p h _ _ _

theorem layoutSubtree_zero (ch : String → List PersonNode) (x : String)
    (sx sy : Int) (pos : List (String × Pos)) :
    layoutSubtree ch 0 x sx sy pos = (pos, 220) := by
  rw [layoutSubtree]

theorem layoutSubtree_succ (ch : String → List PersonNode) (f : Nat)
    (x : String) (sx sy : Int) (pos : List (String × Pos)) :
    layoutSubtree ch (f + 1) x sx sy pos
      = (if (ch x).isEmpty then
           (assocSet pos x ⟨sx + (getSubtreeWidth ch (f + 1) x - 220) / 2, sy⟩,
            getSubtreeWidth ch (f + 1) x)
         else if (ch x).any (fun c => !(ch c.id).isEmpty) then
           (layoutChildren ch f (ch x) sx (sy + 100 + 40)
              (assocSet pos x
                ⟨sx + (getSubtreeWidth ch (f + 1) x - 220) / 2, sy⟩),
            getSubtreeWidth ch (f + 1) x)
         else
           (stackRoleGroups (groupChildrenByRole (ch x)) sx (sy + 100 + 40)
              (assocSet pos x
                ⟨sx + (getSubtreeWidth ch (f + 1) x - 220) / 2, sy⟩),
            getSubtreeWidth ch (f + 1) x)) := by
  rw [layoutSubtree]

theorem layoutChildren_nil (ch : String → List PersonNode) (f : Nat)
    (cx cy : Int) (pos : List (String × Pos)) :
    layoutChildren ch f [] cx cy pos = pos := by
  rw [layoutChildren]

theorem layoutChildren_cons (ch : String → List PersonNode) (f : Nat)
    (c : PersonNode) (rest : List PersonNode) (cx cy : Int)
    (pos : List (String × Pos)) :
    layoutChildren ch f (c :: rest) cx cy pos
      = layoutChildren ch f rest
          (cx + (layoutSubtree ch f c.id cx cy pos).2 + 20) cy
          (layoutSubtree ch f c.id cx cy pos).1 := by
  rw [layoutChildren]

theorem layoutSubtree_mono (ch : String → List PersonNode) :
    ∀ (fuel : Nat) (x : String) (sx sy : Int) (pos : List (String × Pos))
      (k : String), hasKey pos k = true →
      hasKey (layoutSubtree ch fuel x sx sy pos).1 k = true := by
  intro fuel
  induction fuel with
  | zero =>
    intro x sx sy pos k h
    rw [layoutSubtree_zero]
    exact h
  | succ f ih =>
    have hch : ∀ (children : List PersonNode) (cx cy : Int)
        (pos : List (String × Pos)) (k : String), hasKey pos k = true →
        hasKey (layoutChildren ch f children cx cy pos) k = true := by
      intro children
      induction children with
      | nil =>
        intro cx cy pos k h
        rw [layoutChildren_nil]
        exact h
      | cons c rest ihc =>
        intro cx cy pos k h
        rw [layoutChildren_cons]
        exact ihc _ _ _ _ (ih _ _ _ _ _ h)
    intro x sx sy pos k h
    rw [layoutSubtree_succ]
    by_cases hemp : (ch x).isEmpty = true
    · rw [if_pos hemp]
      exact hasKey_assocSet_mono _ _ _ _ h
    · rw [if_neg hemp]
      by_cases hmgr : (ch x).any (fun c => !(ch c.id).isEmpty) = true
      · rw [if_pos hmgr]
        exact hch _ _ _ _ _ (hasKey_assocSet_mono _ _ _ _ h)
      · rw [if_neg hmgr]
        exact stackRoleGroups_mono _ _ _ _ _ (hasKey_assocSet_mono _ _ _ _ h)

theorem layoutChildren_mono (ch : String → List PersonNode) (fuel : Nat) :
    ∀ (children : List PersonNode) (cx cy : Int) (pos : List (String × Pos))
      (k : String), hasKey pos k = true →
      hasKey (layoutChildren ch fuel children cx cy pos) k = true := by
  intro children
  induction children with
  | nil =>
    intro cx cy pos k h
    rw [layoutChildren_nil]
    exact h
  | cons c rest ihc =>
    intro cx cy pos k h
    rw [layoutChildren_cons]
    exact ihc _ _ _ _ (layoutSubtree_mono ch fuel _ _ _ _ _ h)

theorem layoutSubtree_covers (ch : String → List PersonNode) :
    ∀ (fuel d : Nat) (x y : String), DescN ch d x y → d < fuel →
      ∀ (sx sy : Int) (pos : List (String × Pos)),
        hasKey (layoutSubtree ch fuel x sx sy pos).1 y = true := by
  intro fuel
  induction fuel with
  | zero =>
    intro d x y _ hd
    exact absurd hd (Nat.not_lt_zero d)
  | succ f ih =>
    have hchcov : ∀ (children : List PersonNode) (c : PersonNode) (y : String)
        (d : Nat), c ∈ children → DescN ch d c.id y → d < f →
        ∀ (cx cy : Int) (pos : List (String × Pos)),
          hasKey (layoutChildren ch f children cx cy pos) y = true := by
      intro children
      induction children with
      | nil => intro c y d hc; cases hc
      | cons c0 rest ihc =>
        intro c y d hc hdesc hd cx cy pos
        rw [layoutChildren_cons]
        rcases List.mem_cons.mp hc with h | h
        · subst h
          exact layoutChildren_mono ch f rest _ _ _ _
            (ih d c.id y hdesc hd cx cy pos)
        · exact ihc c y d h hdesc hd _ _ _
    intro d x y hdesc hd sx sy pos
    rw [layoutSubtree_succ]
    cases d with
    | zero =>
      have hy : y = x := hdesc
      rw [hy]
      by_cases hemp : (ch x).isEmpty = true
      · rw [if_pos hemp]
        exact hasKey_assocSet_self _ _ _
      · rw [if_neg hemp]
        by_cases hmgr : (ch x).any (fun c => !(ch c.id).isEmpty) = true
        · rw [if_pos hmgr]
          exact layoutChildren_mono ch f _ _ _ _ _ (hasKey_assocSet_self _ _ _)
        · rw [if_neg hmgr]
          exact stackRoleGroups_mono _ _ _ _ _ (hasKey_assocSet_self _ _ _)
    | succ d2 =>
      have hdesc2 : ∃ c ∈ ch x, DescN ch d2 c.id y := hdesc
      obtain ⟨c, hc, hdesc3⟩ := hdesc2
      have hemp : ¬((ch x).isEmpty = true) := by
        cases hchx : ch x with
        | nil => rw [hchx] at hc; cases hc
        | cons a l => simp [hchx]
      rw [if_neg hemp]
      by_cases hmgr : (ch x).any (fun c => !(ch c.id).isEmpty) = true
      · rw [if_pos hmgr]
        exact hchcov (ch x) c y d2 hc hdesc3 (by omega) _ _ _
      · rw [if_neg hmgr]
        have hleaf : ch c.id = [] := by
          by_contra hne
          apply hmgr
          rw [List.any_eq_true]
          refine ⟨c, hc, ?_⟩
          cases hchc : ch c.id with
          | nil => exact absurd hchc hne
          | cons a l => simp
        cases d2 with
        | zero =>
          have hy : y = c.id := hdesc3
          subst hy
          obtain ⟨g, hg, hcg⟩ := groupChildrenByRole_covers (ch x) c hc
          exact stackRoleGroups_covers _ g hg c hcg _ _ _
        | succ d3 =>
          have hdesc4 : ∃ c2 ∈ ch c.id, DescN ch d3 c2.id y := hdesc3
          obtain ⟨c2, hc2, _⟩ := hdesc4
          rw [hleaf] at hc2
          cases hc2

theorem layoutRoots_mono (ch : String → List PersonNode) (fuel : Nat) :
    ∀ (roots : List PersonNode) (cx cy : Int) (pos : List (String × Pos))
      (k : String), hasKey pos k = true →
      hasKey (layoutRoots ch fuel roots cx cy pos) k = true := by
  intro roots
  induction roots with
  | nil => intro cx cy pos k h; rw [layoutRoots]; exact h
  | cons r rest ih =>
    intro cx cy pos k h
    rw [layoutRoots]
    exact ih _ _ _ _ (layoutSubtree_mono ch fuel _ _ _ _ _ h)

theorem layoutRoots_covers (ch : String → List PersonNode) (fuel : Nat) :
    ∀ (roots : List PersonNode) (r : PersonNode) (y : String) (d : Nat),
      r ∈ roots → DescN ch d r.id y → d < fuel →
      ∀ (cx cy : Int) (pos : List (String × Pos)),
        hasKey (layoutRoots ch fuel roots cx cy pos) y = true := by
  intro roots
  induction roots with
  | nil => intro r y d hr; cases hr
  | cons r0 rest ih =>
    intro r y d hr hdesc hd cx cy pos
    rw [layoutRoots]
    rcases List.mem_cons.mp hr with h | h
    · subst h
      exact layoutRoots_mono ch fuel rest _ _ _ _
        (layoutSubtree_covers ch fuel d r.id y hdesc hd cx cy pos)
    · exact ih r y d h hdesc hd _ _ _

theorem DescN_snoc (ch : String → List PersonNode) :
    ∀ (d : Nat) (x y : String), DescN ch d x y →
      ∀ (c : PersonNode), c ∈ ch y → DescN ch (d + 1) x c.id := by
  intro d
  induction d with
  | zero =>
    intro x y hxy c hc
    have hy : y = x := hxy
    rw [hy] at hc
    exact show ∃ c2 ∈ ch x, DescN ch 0 c2.id c.id from ⟨c, hc, rfl⟩
  | succ d ih =>
    intro x y hxy c hc
    have hxy2 : ∃ c1 ∈ ch x, DescN ch d c1.id y := hxy
    obtain ⟨c1, hc1, hrest⟩ := hxy2
    exact show ∃ c2 ∈ ch x, DescN ch (d + 1) c2.id c.id from
      ⟨c1, hc1, ih c1.id y hrest c hc⟩

theorem find?_self_of_nodup :
    ∀ (persons : List PersonNode), (idsOf persons).Nodup →
      ∀ p ∈ persons, persons.find? (fun q => q.id = p.id) = some p := by
  intro persons
  induction persons with
  | nil => intro _ p hp; cases hp
  | cons p0 rest ih =>
    intro hnd p hp
    have hnd1 : (∀ q ∈ rest, ¬q.id = p0.id) ∧ (rest.map (·.id)).Nodup := by
      simpa [idsOf] using hnd
    rcases List.mem_cons.mp hp with h | h
    · rw [h]
      rw [List.find?_cons_of_pos _ (by simp)]
    · have hne : ¬(p.id = p0.id) := hnd1.1 p h
      rw [List.find?_cons_of_neg _ (by simpa using fun hh => hne hh.symm)]
      exact ih hnd1.2 p h

theorem mgrOf_self_of_nodup (persons : List PersonNode)
    (hnd : (idsOf persons).Nodup) (p : PersonNode) (hp : p ∈ persons) :
    mgrOf persons p.id = truthyOpt p.managerId := by
  unfold mgrOf
  rw [find?_self_of_nodup persons hnd p hp, Option.some_bind]

theorem childrenOf_mem (persons : List PersonNode) (m : String)
    (c : PersonNode) (hc : c ∈ childrenOf persons m) :
    ¬(m = "") ∧ c ∈ persons ∧ c.managerId = some m := by
  unfold childrenOf at hc
  by_cases hm : m = ""
  · rw [if_pos hm] at hc
    cases hc
  · rw [if_neg hm] at hc
    rw [List.mem_filter] at hc
    exact ⟨hm, hc.1, by simpa using hc.2⟩

theorem mem_childrenOf (persons : List PersonNode) (m : String)
    (c : PersonNode) (hc : c ∈ persons) (hm : c.managerId = some m)
    (hme : ¬(m = "")) : c ∈ childrenOf persons m := by
  unfold childrenOf
  rw [if_neg hme]
  rw [List.mem_filter]
  exact ⟨hc, by simp [hm]⟩

theorem mem_managerIdValues (persons : List PersonNode) (c : PersonNode)
    (m : String) (hc : c ∈ persons) (hm : c.managerId = some m)
    (hme : ¬(m = "")) : m ∈ managerIdValues persons := by
  unfold managerIdValues
  rw [List.mem_filterMap]
  refine ⟨c, hc, ?_⟩
  rw [hm]
  simp [hme]

/-- Walking the manager graph up from any person reaches a layout root in
fewer steps than any chain bound, and the person is that root's
descendant along the children relation the layout recursion follows. -/
theorem ascend (persons : List PersonNode) (hnd : (idsOf persons).Nodup) :
    ∀ (n : Nat) (p : PersonNode), p ∈ persons →
      stepIter (mgrOf persons) n p.id = none →
      ∃ r ∈ persons, isRootNode persons r = true
        ∧ ∃ d, d < n ∧ DescN (childrenOf persons) d r.id p.id := by
  intro n
  induction n with
  | zero =>
    intro p hp hstep
    rw [stepIter] at hstep
    exact absurd hstep (by simp)
  | succ n ih =>
    intro p hp hstep
    rw [stepIter] at hstep
    cases hg : mgrOf persons p.id with
    | none =>
      have hroot : isRootNode persons p = true := by
        rw [mgrOf_self_of_nodup persons hnd p hp] at hg
        cases hm : p.managerId with
        | none => simp [isRootNode, hm]
        | some m =>
          rw [hm, truthyOpt] at hg
          by_cases hme : m = ""
          · simp [isRootNode, hm, hme]
          · rw [if_neg hme] at hg
            exact absurd hg (by simp)
      exact ⟨p, hp, hroot, 0, by omega, rfl⟩
    | some m =>
      rw [hg, Option.some_bind] at hstep
      have hpm : p.managerId = some m ∧ ¬(m = "") := by
        rw [mgrOf_self_of_nodup persons hnd p hp] at hg
        cases hm : p.managerId with
        | none =>
          rw [hm] at hg
          exact absurd hg (by simp [truthyOpt])
        | some m2 =>
          rw [hm, truthyOpt] at hg
          by_cases hme : m2 = ""
          · rw [if_pos hme] at hg
            exact absurd hg (by simp)
          · rw [if_neg hme] at hg
            injection hg with hg2
            rw [hg2] at hme
            exact ⟨by rw [hg2], hme⟩
      by_cases hmem : m ∈ idsOf persons
      · obtain ⟨q, hq, hqid⟩ : ∃ q ∈ persons, q.id = m := by
          simpa [idsOf] using hmem
        have hstep2 : stepIter (mgrOf persons) n q.id = none := by
          rw [hqid]
          exact hstep
        obtain ⟨r, hr, hroot, d, hd, hdesc⟩ := ih q hq hstep2
        refine ⟨r, hr, hroot, d + 1, by omega, ?_⟩
        have hpch : p ∈ childrenOf persons q.id := by
          rw [hqid]
          exact mem_childrenOf persons m p hp hpm.1 hpm.2
        exact DescN_snoc (childrenOf persons) d r.id q.id hdesc p hpch
      · have hroot : isRootNode persons p = true := by
          have hany : persons.any (fun q => q.id = m) = false := by
            by_contra hany
            apply hmem
            have hany2 : persons.any (fun q => q.id = m) = true := by
              cases h2 : persons.any (fun q => q.id = m) with
              | false => exact absurd h2 hany
              | true => rfl
            rw [List.any_eq_true] at hany2
            obtain ⟨q, hq, hqid⟩ := hany2
            rw [idsOf, List.mem_map]
            exact ⟨q, hq, by simpa using hqid⟩
          simp [isRootNode, hpm.1, hany]
        exact ⟨p, hp, hroot, 0, by omega, rfl⟩

theorem calcHier_eq (persons : List PersonNode)
    (departments : List Department) :
    calculateHierarchicalLayout persons departments
      = layoutRoots (childrenOf persons) (persons.length + 1)
          ((persons.filter (isRootNode persons)).filter
            (fun q => (managerIdValues persons).contains q.id))
          50
          (if ((persons.filter (isRootNode persons)).filter
                (fun q => !((managerIdValues persons).contains q.id))).length
              > 0 then
             50 + ((((((persons.filter (isRootNode persons)).filter
                (fun q => !((managerIdValues persons).contains q.id))).length
                + 5) / 6 : Nat) : Int)) * 115 + 40
           else 50)
          (placeUnassigned ((persons.filter (isRootNode persons)).filter
            (fun q => !((managerIdValues persons).contains q.id))) 0 []) := rfl

theorem hierarchical_covers (persons : List PersonNode)
    (departments : List Department)
    (hnd : (idsOf persons).Nodup) (hacyc : Acyclic (mgrOf persons))
    (p : PersonNode) (hp : p ∈ persons) :
    hasKey (calculateHierarchicalLayout persons departments) p.id = true := by
  obtain ⟨r, hr, hroot, d, hd, hdesc⟩ :=
    ascend persons hnd (persons.length + 1) p hp
      (chain_terminates persons hacyc p.id)
  rw [calcHier_eq]
  by_cases hcon : (managerIdValues persons).contains r.id = true
  · have hmem : r ∈ (persons.filter (isRootNode persons)).filter
        (fun q => (managerIdValues persons).contains q.id) := by
      rw [List.mem_filter]
      exact ⟨List.mem_filter.mpr ⟨hr, hroot⟩, hcon⟩
    exact layoutRoots_covers (childrenOf persons) (persons.length + 1)
      _ r p.id d hmem hdesc hd _ _ _
  · cases d with
    | zero =>
      have hy : p.id = r.id := hdesc
      have hcf : (managerIdValues persons).contains r.id = false := by
        cases h2 : (managerIdValues persons).contains r.id with
        | false => rfl
        | true => exact absurd h2 hcon
      have hmem : r ∈ (persons.filter (isRootNode persons)).filter
          (fun q => !((managerIdValues persons).contains q.id)) := by
        rw [List.mem_filter]
        refine ⟨List.mem_filter.mpr ⟨hr, hroot⟩, ?_⟩
        show (!((managerIdValues persons).contains r.id)) = true
        rw [hcf]
        rfl
      rw [hy]
      exact layoutRoots_mono _ _ _ _ _ _ _
        (placeUnassigned_covers _ r hmem 0 [])
    | succ d2 =>
      exfalso
      apply hcon
      have hdesc2 : ∃ c ∈ childrenOf persons r.id,
          DescN (childrenOf persons) d2 c.id p.id := hdesc
      obtain ⟨c, hc, _⟩ := hdesc2
      obtain ⟨hne, hcp, hcm⟩ := childrenOf_mem persons r.id c hc
      have hmm : r.id ∈ managerIdValues persons :=
        mem_managerIdValues persons c r.id hcp hcm hne
      simpa using hmm

theorem gridDeptStep_eq (persons : List PersonNode)
    (acc : List (String × Pos) × Int) (dept : Department) :
    gridDeptStep persons acc dept
      = if (persons.filter (fun q => q.departmentId = dept.id)).length = 0 then
          acc
        else
          (placeGridDept (persons.filter (fun q => q.departmentId = dept.id))
            acc.2 0 acc.1,
           acc.2 + ((((persons.filter
              (fun q => q.departmentId = dept.id)).length + 3) / 4 : Nat) : Int)
             * 120 + 180) := rfl

theorem gridFold_mono (persons : List PersonNode) :
    ∀ (depts : List Department) (acc : List (String × Pos) × Int) (k : String),
      hasKey acc.1 k = true →
      hasKey (depts.foldl (gridDeptStep persons) acc).1 k = true := by
  intro depts
  induction depts with
  | nil => intro acc k h; exact h
  | cons d0 rest ih =>
    intro acc k h
    rw [List.foldl_cons]
    apply ih
    rw [gridDeptStep_eq]
    by_cases hlen : (persons.filter (fun q => q.departmentId = d0.id)).length = 0
    · rw [if_pos hlen]
      exact h
    · rw [if_neg hlen]
      exact placeGridDept_mono _ _ _ _ _ h

theorem gridFold_covers (persons : List PersonNode) (p : PersonNode)
    (hp : p ∈ persons) :
    ∀ (depts : List Department) (dept : Department), dept ∈ depts →
      dept.id = p.departmentId →
      ∀ (acc : List (String × Pos) × Int),
        hasKey (depts.foldl (gridDeptStep persons) acc).1 p.id = true := by
  intro depts
  induction depts with
  | nil => intro dept h; cases h
  | cons d0 rest ih =>
    intro dept hdept hdid acc
    rw [List.foldl_cons]
    rcases List.mem_cons.mp hdept with h | h
    · apply gridFold_mono
      rw [gridDeptStep_eq]
      have hd0 : p.departmentId = d0.id := by
        rw [← h]
        exact hdid.symm
      have hpmem : p ∈ persons.filter (fun q => q.departmentId = d0.id) := by
        rw [List.mem_filter]
        exact ⟨hp, by simp [hd0]⟩
      have hlen : ¬((persons.filter
          (fun q => q.departmentId = d0.id)).length = 0) := by
        intro h0
        rw [List.length_eq_zero] at h0
        rw [h0] at hpmem
        cases hpmem
      rw [if_neg hlen]
      exact placeGridDept_covers _ p hpmem _ _ _
    · exact ih dept h hdid _

theorem calculateGridLayout_covers (persons : List PersonNode)
    (departments : List Department) (p : PersonNode) (hp : p ∈ persons)
    (dept : Department) (hdept : dept ∈ departments)
    (hdid : dept.id = p.departmentId) :
    hasKey (calculateGridLayout persons departments) p.id = true := by
  unfold calculateGridLayout
  exact gridFold_covers persons p hp departments dept hdept hdid ([], 0)

/-- Counterexample to claim C6.  Layout totality fails in grid mode: a
single unassigned person (an acyclic manager relation) whose department
list is empty gets no position — `calculateGridLayout` only lays out
persons whose `departmentId` matches some listed department. -/
theorem c6_counterexample :
    Acyclic (mgrOf [mkPerson "a" none "d"])
    ∧ hasKey (calculateLayout [mkPerson "a" none "d"] []) "a" = false := by
  constructor
  · apply acyclic_of_rank _ (fun _ => 0)
    intro x y h
    exfalso
    by_cases hx : x = "a"
    · rw [hx] at h
      have hval : mgrOf [mkPerson "a" none "d"] "a" = none := rfl
      rw [hval] at h
      exact Option.noConfusion h
    · have ha2 : ¬("a" = x) := fun hh => hx hh.symm
      have hval : mgrOf [mkPerson "a" none "d"] x = none := by
        simp [mgrOf, mkPerson, List.find?, ha2, truthyOpt]
      rw [hval] at h
      exact Option.noConfusion h
  · rfl

/-- Claim C6 (amended): over a person list with distinct ids and an
acyclic manager graph, the hierarchical layout assigns a position to every
person; the department-grid layout assigns a position to every person
whose `departmentId` occurs in the department list (others are dropped),
and hence so does the dispatching `calculateLayout` under that proviso. -/
theorem c6_theorem (persons : List PersonNode) (departments : List Department)
    (hnd : (idsOf persons).Nodup) (hacyc : Acyclic (mgrOf persons))
    (p : PersonNode) (hp : p ∈ persons) :
    hasKey (calculateHierarchicalLayout persons departments) p.id = true
    ∧ ((∃ dept ∈ departments, dept.id = p.departmentId) →
        hasKey (calculateGridLayout persons departments) p.id = true)
    ∧ ((∃ dept ∈ departments, dept.id = p.departmentId) →
        hasKey (calculateLayout persons departments) p.id = true) := by
  refine ⟨hierarchical_covers persons departments hnd hacyc p hp, ?_, ?_⟩
  · rintro ⟨dept, hdept, hdid⟩
    exact calculateGridLayout_covers persons departments p hp dept hdept hdid
  · rintro ⟨dept, hdept, hdid⟩
    unfold calculateLayout
    by_cases hmode : persons.any (fun q => q.managerId.isSome) = true
    · rw [if_pos hmode]
      exact hierarchical_covers persons departments hnd hacyc p hp
    · rw [if_neg hmode]
      exact calculateGridLayout_covers persons departments p hp dept hdept hdid

/-- Witness for C6: on the acyclic pair `a → b` with its department
listed, both layout modes and the dispatcher give `a` a position. -/
theorem c6_witness :
    (idsOf exVisPersons).Nodup
    ∧ Acyclic (mgrOf exVisPersons)
    ∧ hasKey (calculateHierarchicalLayout exVisPersons [exDept]) "a" = true
    ∧ hasKey (calculateGridLayout exVisPersons [exDept]) "a" = true
    ∧ hasKey (calculateLayout exVisPersons [exDept]) "a" = true := by
  have h := c6_theorem exVisPersons [exDept] (by decide) exVisPersons_acyclic
    (mkPerson "a" (some "b") "d") (by decide)
  exact ⟨by decide, exVisPersons_acyclic, h.1,
    h.2.1 ⟨exDept, by simp, rfl⟩, h.2.2 ⟨exDept, by simp, rfl⟩⟩
